import Mathlib

/-!
Shallow embedding of the `lace` union-find crate
(`crates/unionfind/src/generic.rs` and `crates/unionfind/src/extra.rs`).

The crate's `mapping` and `union` modules are not part of the provided
sources; their behaviour is modelled from the specification (see the doc
comments starting with "Modelled from the spec").  Mappings are modelled as
association lists in which `Map.get` returns the most recently written
binding, which realises the hash-map contract observationally.  The
recursive `find`/`find_shorten` traversals are embedded with explicit fuel;
on every forest state the fuel `parent.length + 1` is shown sufficient, and
on states where the Rust recursion would run off a dangling parent pointer
both the code and the model return `none`.  Rust panics (the `unwrap`
calls in `new` and `find_or_add`) are modelled as `none` results.
-/

namespace Lace

/-- Modelled from the spec: the `Mapping<K, V>` abstraction of the missing
`crate::mapping` module, as an association list. -/
abbrev Map (α β : Type) : Type := List (α × β)

variable {α β : Type}

/-- Modelled from the spec: `get(key)` returns the current mapped value, or
nothing if the key is absent.  The first (most recent) binding wins. -/
def Map.get [DecidableEq α] : Map α β → α → Option β
  | [], _ => none
  | (k, v) :: m, x => if k = x then some v else Map.get m x

/-- Modelled from the spec: `set(key, value)` overwrites the mapped value of
a present key.  Prepending the binding shadows the old one, so `Map.get`
observes the update. -/
def Map.set (m : Map α β) (k : α) (v : β) : Map α β := (k, v) :: m

/-- Modelled from the spec: `add(key, value)` inserts a previously absent
key and fails (`none`, the "already exists" error) if the key is present. -/
def Map.add [DecidableEq α] (m : Map α β) (k : α) (v : β) : Option (Map α β) :=
  match Map.get m k with
  | some _ => none
  | none => some (Map.set m k v)

/-- Modelled from the spec: `add_identity(key)` is `add(key, key)`. -/
def Map.add_identity [DecidableEq α] (m : Map α α) (k : α) : Option (Map α α) :=
  Map.add m k k

/-- Modelled from the spec: `identity_map(elems)` maps every given key to
itself and fails on a duplicate key. -/
def Map.identity_map [DecidableEq α] : List α → Option (Map α α)
  | [] => some []
  | x :: xs => (Map.identity_map xs).bind (fun m => Map.add m x x)

/-- Modelled from the spec: `zero_map(elems)` maps every given key to rank
`0` and fails on a duplicate key. -/
def Map.zero_map [DecidableEq α] : List α → Option (Map α Nat)
  | [] => some []
  | x :: xs => (Map.zero_map xs).bind (fun m => Map.add m x 0)

/-- The number of values of `usize` on the reference 64-bit platform.
Ranks are `usize` in `extra.rs`; the model represents a `usize` as its
value, a natural number below `usizeSize`, and the rank arithmetic of
`union_by_rank_helper` wraps modulo `usizeSize` exactly as Rust release
builds do (debug builds panic at the same input instead). -/
def usizeSize : Nat := 2 ^ 64

/-- `ByRank<T>` from `extra.rs`: rank metadata for every key, each a
`usize` value. -/
structure ByRank (α : Type) where
  mapping : Map α Nat

/-- `ByRank::rank`. -/
def ByRank.rank [DecidableEq α] (b : ByRank α) (e : α) : Option Nat :=
  Map.get b.mapping e

/-- `ByRank::set_rank`. -/
def ByRank.set_rank (b : ByRank α) (e : α) (r : Nat) : ByRank α :=
  ⟨Map.set b.mapping e r⟩

/-- `GrowableExtra::add` for `ByRank`: delegates to the mapping's `add`.
The `usize` value argument is taken modulo `usizeSize`, so every model
argument denotes exactly the machine value a Rust caller could pass. -/
def ByRank.add [DecidableEq α] (b : ByRank α) (e : α) (v : Nat) : Option (ByRank α) :=
  (Map.add b.mapping e (v % usizeSize)).map (fun m => ⟨m⟩)

/-- The `UnionFind` struct of `generic.rs`, instantiated at the by-rank
extra-info strategy (the instantiation every rank claim concerns; `find`,
`find_shorten` and `union_by` never consult the extra slot). -/
structure UnionFind (α : Type) where
  parent : Map α α
  extra : ByRank α

/-- Fuel-indexed embedding of the recursion of `UnionFind::find`:
look up the parent of `e`; a self-parent is the representative, otherwise
recurse on the parent. -/
def findAux [DecidableEq α] (m : Map α α) : Nat → α → Option α
  | 0, _ => none
  | n + 1, e =>
    match Map.get m e with
    | none => none
    | some p => if p = e then some p else findAux m n p

/-- `UnionFind::find`.  The fuel `parent.length + 1` is sufficient on every
forest state (established through the reachability invariant below). -/
def UnionFind.find [DecidableEq α] (uf : UnionFind α) (e : α) : Option α :=
  findAux uf.parent (uf.parent.length + 1) e

/-- Fuel-indexed embedding of `UnionFind::find_shorten`: the same traversal
as `find`, but after a successful recursive call every visited key is
repointed to the discovered representative.  All lookups happen before the
writes, exactly as in the Rust recursion. -/
def findShortenAux [DecidableEq α] : Nat → Map α α → α → Option α × Map α α
  | 0, m, _ => (none, m)
  | n + 1, m, e =>
    match Map.get m e with
    | none => (none, m)
    | some p =>
      if p = e then (some p, m)
      else
        match findShortenAux n m p with
        | (none, m') => (none, m')
        | (some r, m') => (some r, Map.set m' e r)

/-- `UnionFind::find_shorten`, returning the result and the mutated state. -/
def UnionFind.find_shorten [DecidableEq α] (uf : UnionFind α) (e : α) :
    Option α × UnionFind α :=
  ((findShortenAux (uf.parent.length + 1) uf.parent e).1,
   { uf with parent := (findShortenAux (uf.parent.length + 1) uf.parent e).2 })

/-- `UnionStatus` from `generic.rs`. -/
inductive UnionStatus where
  | AlreadyEquivalent
  | PerformedUnion
deriving DecidableEq

/-- `UnionError<Err>` from `generic.rs`. -/
inductive UnionError (ε : Type) where
  | Elem1NotFound
  | Elem2NotFound
  | NotUnionable (e : ε)

/-- `UnionByRankError` from `generic.rs`. -/
inductive UnionByRankError where
  | Elem1NotFound
  | Elem2NotFound
deriving DecidableEq

/-- `AddError` from `generic.rs`; the payloads are the mapping "already
exists" errors, which carry no information in the model. -/
inductive AddError where
  | Parent
  | Extra
deriving DecidableEq

/-- `NewUnionFindError` from `generic.rs`: declared there for construction
failures, but never produced because `UnionFind::new` unwraps (panics). -/
inductive NewUnionFindError where
  | Parent
  | Extra
deriving DecidableEq

/-- `UnionFind::union_helper`: short-circuit when both representatives
coincide, otherwise consult the union strategy and repoint both
representatives to its result.  A strategy is modelled from the spec
(`crate::union` is not in the sources) as a function that may fail. -/
def UnionFind.union_helper [DecidableEq α] {ε : Type} (uf : UnionFind α)
    (parent1 parent2 : α) (union : α → α → Except ε α) :
    Except ε UnionStatus × UnionFind α :=
  if parent1 = parent2 then (Except.ok UnionStatus.AlreadyEquivalent, uf)
  else
    match union parent1 parent2 with
    | Except.error e => (Except.error e, uf)
    | Except.ok res =>
      (Except.ok UnionStatus.PerformedUnion,
       { uf with parent := Map.set (Map.set uf.parent parent1 res) parent2 res })

/-- `UnionFind::union_by`: resolve both elements with `find_shorten`
(recording any compression in the state even when the second lookup
fails), then delegate to `union_helper`. -/
def UnionFind.union_by [DecidableEq α] {ε : Type} (uf : UnionFind α)
    (elem1 elem2 : α) (union : α → α → Except ε α) :
    Except (UnionError ε) UnionStatus × UnionFind α :=
  match UnionFind.find_shorten uf elem1 with
  | (none, uf1) => (Except.error UnionError.Elem1NotFound, uf1)
  | (some p1, uf1) =>
    match UnionFind.find_shorten uf1 elem2 with
    | (none, uf2) => (Except.error UnionError.Elem2NotFound, uf2)
    | (some p2, uf2) =>
      match UnionFind.union_helper uf2 p1 p2 union with
      | (Except.ok s, uf3) => (Except.ok s, uf3)
      | (Except.error err, uf3) => (Except.error (UnionError.NotUnionable err), uf3)

/-- `UnionFind::union_by_rank_helper`: compare the ranks of the two distinct
representatives; the lower-rank one is repointed to the higher-rank one, and
on a tie `parent1` is repointed to `parent2` whose rank is incremented by the
source's `usize` addition `rank2 + 1`, which wraps modulo `usizeSize`
(release semantics; debug builds panic at `usize::MAX`). -/
def UnionFind.union_by_rank_helper [DecidableEq α] (uf : UnionFind α)
    (parent1 parent2 : α) : Except UnionByRankError UnionStatus × UnionFind α :=
  if parent1 = parent2 then (Except.ok UnionStatus.AlreadyEquivalent, uf)
  else
    match ByRank.rank uf.extra parent1 with
    | none => (Except.error UnionByRankError.Elem1NotFound, uf)
    | some rank1 =>
      match ByRank.rank uf.extra parent2 with
      | none => (Except.error UnionByRankError.Elem2NotFound, uf)
      | some rank2 =>
        match compare rank1 rank2 with
        | Ordering.lt =>
          (Except.ok UnionStatus.PerformedUnion,
           { uf with parent := Map.set uf.parent parent1 parent2 })
        | Ordering.eq =>
          (Except.ok UnionStatus.PerformedUnion,
           { uf with parent := Map.set uf.parent parent1 parent2,
                     extra := ByRank.set_rank uf.extra parent2
                       ((rank2 + 1) % usizeSize) })
        | Ordering.gt =>
          (Except.ok UnionStatus.PerformedUnion,
           { uf with parent := Map.set uf.parent parent2 parent1 })

/-- `UnionFind::union_by_rank`. -/
def UnionFind.union_by_rank [DecidableEq α] (uf : UnionFind α) (elem1 elem2 : α) :
    Except UnionByRankError UnionStatus × UnionFind α :=
  match UnionFind.find_shorten uf elem1 with
  | (none, uf1) => (Except.error UnionByRankError.Elem1NotFound, uf1)
  | (some p1, uf1) =>
    match UnionFind.find_shorten uf1 elem2 with
    | (none, uf2) => (Except.error UnionByRankError.Elem2NotFound, uf2)
    | (some p2, uf2) => UnionFind.union_by_rank_helper uf2 p1 p2

/-- `UnionFind::add`: insert into the parent mapping first, then into the
extra mapping; a failure of the second insertion leaves the first applied. -/
def UnionFind.add [DecidableEq α] (uf : UnionFind α) (e : α) :
    Except AddError Unit × UnionFind α :=
  match Map.add_identity uf.parent e with
  | none => (Except.error AddError.Parent, uf)
  | some p' =>
    match ByRank.add uf.extra e 0 with
    | none => (Except.error AddError.Extra, { uf with parent := p' })
    | some ex' => (Except.ok (), { parent := p', extra := ex' })

/-- `UnionFind::add_with_extra`: like `add` with caller-supplied metadata;
the supplied rank is a `usize`, which the extra store represents by its
value modulo `usizeSize`. -/
def UnionFind.add_with_extra [DecidableEq α] (uf : UnionFind α) (e : α) (v : Nat) :
    Except AddError Unit × UnionFind α :=
  match Map.add_identity uf.parent e with
  | none => (Except.error AddError.Parent, uf)
  | some p' =>
    match ByRank.add uf.extra e v with
    | none => (Except.error AddError.Extra, { uf with parent := p' })
    | some ex' => (Except.ok (), { parent := p', extra := ex' })

/-- `UnionFind::find_or_add`; the `unwrap` on the inner `add` is a panic,
modelled as `none`. -/
def UnionFind.find_or_add [DecidableEq α] (uf : UnionFind α) (e : α) :
    Option (α × UnionFind α) :=
  match UnionFind.find uf e with
  | some i => some (i, uf)
  | none =>
    match UnionFind.add uf e with
    | (Except.ok _, uf') => some (e, uf')
    | (Except.error _, _) => none

/-- `UnionFind::new`: both construction `unwrap`s are panics, modelled as
`none`; on success every key maps to itself with rank `0`. -/
def UnionFind.new [DecidableEq α] (elems : List α) : Option (UnionFind α) :=
  match Map.identity_map elems with
  | none => none
  | some p =>
    match Map.zero_map elems with
    | none => none
    | some z => some { parent := p, extra := ⟨z⟩ }

/-- Decidable forest invariant of a parent mapping: from every present key,
the bounded `find` traversal reaches a representative. -/
def InvP [DecidableEq α] (m : Map α α) : Prop :=
  ∀ kv ∈ m, (findAux m (m.length + 1) kv.1).isSome

/-- Decidable statement that the parent mapping and the extra mapping hold
exactly the same key set. -/
def KeysEq [DecidableEq α] (uf : UnionFind α) : Prop :=
  (∀ kv ∈ uf.parent, Map.get uf.extra.mapping kv.1 ≠ none) ∧
  (∀ kv ∈ uf.extra.mapping, Map.get uf.parent kv.1 ≠ none)

/-- The combined structural invariant. -/
def Inv [DecidableEq α] (uf : UnionFind α) : Prop :=
  InvP uf.parent ∧ KeysEq uf

instance [DecidableEq α] (m : Map α α) : Decidable (InvP m) :=
  inferInstanceAs (Decidable (∀ kv ∈ m, (findAux m (m.length + 1) kv.1).isSome))

instance [DecidableEq α] (uf : UnionFind α) : Decidable (KeysEq uf) :=
  inferInstanceAs (Decidable (And _ _))

instance [DecidableEq α] (uf : UnionFind α) : Decidable (Inv uf) :=
  inferInstanceAs (Decidable (And _ _))

/-- A union strategy that always hands back one of the two representatives
it is given (it never synthesizes a new key). -/
def GoodStrategy [DecidableEq α] {ε : Type} (u : α → α → Except ε α) : Prop :=
  ∀ a b r, u a b = Except.ok r → r = a ∨ r = b

/-- One application of a public mutating operation, with any arguments and
any union strategy, keeping the post-state whatever the returned result. -/
inductive OneStep [DecidableEq α] : UnionFind α → UnionFind α → Prop where
  | fs (uf : UnionFind α) (e : α) :
      OneStep uf (UnionFind.find_shorten uf e).2
  | ub {ε : Type} (uf : UnionFind α) (e1 e2 : α) (u : α → α → Except ε α) :
      OneStep uf (UnionFind.union_by uf e1 e2 u).2
  | ubr (uf : UnionFind α) (e1 e2 : α) :
      OneStep uf (UnionFind.union_by_rank uf e1 e2).2
  | add (uf : UnionFind α) (e : α) :
      OneStep uf (UnionFind.add uf e).2
  | awe (uf : UnionFind α) (e : α) (v : Nat) :
      OneStep uf (UnionFind.add_with_extra uf e v).2
  | foa (uf : UnionFind α) (e r : α) (uf' : UnionFind α) :
      UnionFind.find_or_add uf e = some (r, uf') → OneStep uf uf'

/-- States reachable from a successful construction through the public
operations, restricted to union strategies that return one of their two
arguments. -/
inductive Reachable [DecidableEq α] : UnionFind α → Prop where
  | base (elems : List α) (uf : UnionFind α) :
      UnionFind.new elems = some uf → Reachable uf
  | fs (uf : UnionFind α) (e : α) :
      Reachable uf → Reachable (UnionFind.find_shorten uf e).2
  | ub {ε : Type} (uf : UnionFind α) (e1 e2 : α) (u : α → α → Except ε α) :
      Reachable uf → GoodStrategy u → Reachable (UnionFind.union_by uf e1 e2 u).2
  | ubr (uf : UnionFind α) (e1 e2 : α) :
      Reachable uf → Reachable (UnionFind.union_by_rank uf e1 e2).2
  | add (uf : UnionFind α) (e : α) :
      Reachable uf → Reachable (UnionFind.add uf e).2
  | awe (uf : UnionFind α) (e : α) (v : Nat) :
      Reachable uf → Reachable (UnionFind.add_with_extra uf e v).2
  | foa (uf : UnionFind α) (e r : α) (uf' : UnionFind α) :
      Reachable uf → UnionFind.find_or_add uf e = some (r, uf') → Reachable uf'

/-- States reachable through the public operations with arbitrary union
strategies (the unrestricted closure the spec's claim quantifies over). -/
inductive ReachableAny [DecidableEq α] : UnionFind α → Prop where
  | base (elems : List α) (uf : UnionFind α) :
      UnionFind.new elems = some uf → ReachableAny uf
  | step (uf uf' : UnionFind α) :
      ReachableAny uf → OneStep uf uf' → ReachableAny uf'

/-- The union-find over `{0, 1}` produced by `new`. -/
def ufA : UnionFind Nat :=
  { parent := [(0, 0), (1, 1)], extra := ⟨[(0, 0), (1, 0)]⟩ }

/-- A union strategy that synthesizes the representative `5`, which is
absent from `ufA`. -/
def synthStrategy : Nat → Nat → Except Unit Nat := fun _ _ => Except.ok 5

/-- The state reached from `ufA` by a union under `synthStrategy`. -/
def ufBad : UnionFind Nat := (UnionFind.union_by ufA 0 1 synthStrategy).2

/-- The union-find over `{0, 1, 2, 3}` produced by `new`. -/
def ufB0 : UnionFind Nat :=
  { parent := [(0, 0), (1, 1), (2, 2), (3, 3)],
    extra := ⟨[(0, 0), (1, 0), (2, 0), (3, 0)]⟩ }

/-- `ufB0` after `union_by_rank 0 1`, `union_by_rank 2 3`,
`union_by_rank 0 2`: the key `0` now sits two steps below its
representative `3`. -/
def ufB : UnionFind Nat :=
  (UnionFind.union_by_rank
    (UnionFind.union_by_rank
      (UnionFind.union_by_rank ufB0 0 1).2 2 3).2 0 2).2

/-- The empty union-find produced by `new []`. -/
def ufEmpty : UnionFind Nat := { parent := [], extra := ⟨[]⟩ }

/-- Two keys added with the maximal `usize` rank: the next tie-merge wraps
the surviving representative's rank to `0`. -/
def ufC : UnionFind Nat :=
  (UnionFind.add_with_extra
    (UnionFind.add_with_extra ufEmpty 0 (usizeSize - 1)).2 1 (usizeSize - 1)).2

theorem Map.get_set [DecidableEq α] (m : Map α β) (k : α) (v : β) (x : α) :
    Map.get (Map.set m k v) x = if k = x then some v else Map.get m x := rfl

theorem Map.get_mem [DecidableEq α] {m : Map α β} {k : α} {v : β}
    (h : Map.get m k = some v) : (k, v) ∈ m := by
  induction m with
  | nil => exact absurd h (by simp [Map.get])
  | cons kv m ih =>
    rcases kv with ⟨k', v'⟩
    by_cases hk : k' = k
    · subst hk
      have hv : Map.get ((k', v') :: m) k' = some v' := by simp [Map.get]
      rw [hv] at h
      rw [← Option.some.inj h]
      exact List.mem_cons_self _ _
    · simp only [Map.get, if_neg hk] at h
      exact List.mem_cons_of_mem _ (ih h)

theorem Map.mem_get [DecidableEq α] {m : Map α β} {kv : α × β}
    (h : kv ∈ m) : Map.get m kv.1 ≠ none := by
  induction m with
  | nil => simp at h
  | cons kv' m ih =>
    rcases kv' with ⟨k', v'⟩
    by_cases hk : k' = kv.1
    · simp [Map.get, hk]
    · rcases List.mem_cons.mp h with h1 | h1
      · rw [h1] at hk; simp at hk
      · simpa [Map.get, hk] using ih h1

theorem Map.add_eq_some [DecidableEq α] {m : Map α β} {k : α} {v : β} {m' : Map α β}
    (h : Map.add m k v = some m') : Map.get m k = none ∧ m' = Map.set m k v := by
  unfold Map.add at h
  cases hg : Map.get m k with
  | none => rw [hg] at h; exact ⟨rfl, (Option.some.inj h).symm⟩
  | some w => rw [hg] at h; cases h

theorem Map.add_eq_none [DecidableEq α] {m : Map α β} {k : α} {v : β}
    (h : Map.add m k v = none) : Map.get m k ≠ none := by
  unfold Map.add at h
  cases hg : Map.get m k with
  | none => rw [hg] at h; cases h
  | some w => simp

theorem findAux_zero [DecidableEq α] (m : Map α α) (e : α) : findAux m 0 e = none := rfl

theorem findAux_succ_none [DecidableEq α] {m : Map α α} {e : α}
    (hg : Map.get m e = none) (n : Nat) : findAux m (n + 1) e = none := by
  have hd : findAux m (n + 1) e =
      match Map.get m e with
      | none => none
      | some p => if p = e then some p else findAux m n p := rfl
  rw [hd, hg]

theorem findAux_succ_some [DecidableEq α] {m : Map α α} {e p : α}
    (hg : Map.get m e = some p) (n : Nat) :
    findAux m (n + 1) e = if p = e then some p else findAux m n p := by
  have hd : findAux m (n + 1) e =
      match Map.get m e with
      | none => none
      | some q => if q = e then some q else findAux m n q := rfl
  rw [hd, hg]

theorem findAux_self [DecidableEq α] {m : Map α α} {e : α}
    (h : Map.get m e = some e) {n : Nat} (hn : 1 ≤ n) : findAux m n e = some e := by
  match n, hn with
  | n + 1, _ => rw [findAux_succ_some h, if_pos rfl]

theorem findAux_get_none [DecidableEq α] {m : Map α α} {e : α}
    (h : Map.get m e = none) (n : Nat) : findAux m n e = none := by
  cases n with
  | zero => rfl
  | succ k => exact findAux_succ_none h k

theorem findAux_mono [DecidableEq α] {m : Map α α} :
    ∀ {n e r}, findAux m n e = some r → ∀ {n' : Nat}, n ≤ n' → findAux m n' e = some r := by
  intro n
  induction n with
  | zero => intro e r h; cases h
  | succ k ih =>
    intro e r h n' hn
    match n', hn with
    | n'' + 1, hn2 =>
      cases hg : Map.get m e with
      | none => rw [findAux_succ_none hg] at h; cases h
      | some p =>
        rw [findAux_succ_some hg] at h
        rw [findAux_succ_some hg]
        by_cases hp : p = e
        · rwa [if_pos hp] at h ⊢
        · rw [if_neg hp] at h ⊢
          exact ih h (Nat.le_of_succ_le_succ hn2)

theorem findAux_det [DecidableEq α] {m : Map α α} {n n' : Nat} {e r r' : α}
    (h : findAux m n e = some r) (h' : findAux m n' e = some r') : r = r' := by
  have h1 := findAux_mono h (Nat.le_max_left n n')
  have h2 := findAux_mono h' (Nat.le_max_right n n')
  rw [h1] at h2
  exact Option.some.inj h2

theorem findAux_root [DecidableEq α] {m : Map α α} :
    ∀ {n e r}, findAux m n e = some r → Map.get m r = some r := by
  intro n
  induction n with
  | zero => intro e r h; cases h
  | succ k ih =>
    intro e r h
    cases hg : Map.get m e with
    | none => rw [findAux_succ_none hg] at h; cases h
    | some p =>
      rw [findAux_succ_some hg] at h
      by_cases hp : p = e
      · rw [if_pos hp] at h
        rw [← Option.some.inj h, hp]
        rw [hp] at hg
        exact hg
      · rw [if_neg hp] at h
        exact ih h

theorem findAux_present [DecidableEq α] {m : Map α α} {n : Nat} {e r : α}
    (h : findAux m n e = some r) : Map.get m e ≠ none := by
  intro hg
  rw [findAux_get_none hg] at h
  cases h

theorem findAux_congr [DecidableEq α] {m m' : Map α α}
    (hg : ∀ j, Map.get m j = Map.get m' j) :
    ∀ (n : Nat) (e : α), findAux m n e = findAux m' n e := by
  intro n
  induction n with
  | zero => intro e; rfl
  | succ k ih =>
    intro e
    cases hge : Map.get m e with
    | none => rw [findAux_succ_none hge, findAux_succ_none (by rw [← hg e]; exact hge)]
    | some p =>
      rw [findAux_succ_some hge, findAux_succ_some (by rw [← hg e]; exact hge)]
      by_cases hp : p = e
      · rw [if_pos hp, if_pos hp]
      · rw [if_neg hp, if_neg hp, ih p]

theorem findAux_extend [DecidableEq α] {m m' : Map α α}
    (hg : ∀ j v, Map.get m j = some v → Map.get m' j = some v) :
    ∀ {n e r}, findAux m n e = some r → findAux m' n e = some r := by
  intro n
  induction n with
  | zero => intro e r h; cases h
  | succ k ih =>
    intro e r h
    cases hge : Map.get m e with
    | none => rw [findAux_succ_none hge] at h; cases h
    | some p =>
      rw [findAux_succ_some hge] at h
      rw [findAux_succ_some (hg e p hge)]
      by_cases hp : p = e
      · rwa [if_pos hp] at h ⊢
      · rw [if_neg hp] at h ⊢
        exact ih h

theorem findAux_set_root [DecidableEq α] {m : Map α α} {e p r : α}
    (he : Map.get m e = some p) (hpe : p ≠ e) (hr : Map.get m r = some r)
    (hroot : ∃ n0, findAux m n0 e = some r) :
    ∀ {n j s}, findAux m n j = some s → findAux (Map.set m e r) n j = some s := by
  have hre : r ≠ e := by
    intro h
    rw [h] at hr
    rw [he] at hr
    exact hpe (Option.some.inj hr)
  intro n
  induction n with
  | zero => intro j s h; cases h
  | succ k ih =>
    intro j s h
    by_cases hje : j = e
    · have hje' : e = j := hje.symm
      subst hje'
      rw [findAux_succ_some he, if_neg hpe] at h
      have hs : r = s := by
        rcases hroot with ⟨n0, hn0⟩
        exact (findAux_det (by rw [findAux_succ_some he, if_neg hpe]; exact h) hn0).symm
      subst hs
      have hge : Map.get (Map.set m e r) e = some r := by
        rw [Map.get_set, if_pos rfl]
      rw [findAux_succ_some hge, if_neg hre]
      cases k with
      | zero => cases h
      | succ k' =>
        refine findAux_self ?_ (Nat.succ_le_succ (Nat.zero_le k'))
        rw [Map.get_set, if_neg (fun hh : e = r => hre hh.symm)]
        exact hr
    · have hgj' : ∀ q, Map.get m j = q → Map.get (Map.set m e r) j = q := by
        intro q hq
        rw [Map.get_set, if_neg (fun hh : e = j => hje hh.symm)]
        exact hq
      cases hgj : Map.get m j with
      | none => rw [findAux_succ_none hgj] at h; cases h
      | some q =>
        rw [findAux_succ_some hgj] at h
        rw [findAux_succ_some (hgj' _ hgj)]
        by_cases hq : q = j
        · rwa [if_pos hq] at h ⊢
        · rw [if_neg hq] at h ⊢
          exact ih h

theorem findAux_link [DecidableEq α] {m : Map α α} {p1 p2 : α}
    (h1 : Map.get m p1 = some p1) (h2 : Map.get m p2 = some p2) (hne : p2 ≠ p1) :
    ∀ {n j s}, findAux m n j = some s →
      findAux (Map.set m p2 p1) (n + 1) j = some (if s = p2 then p1 else s) := by
  intro n
  induction n with
  | zero => intro j s h; cases h
  | succ k ih =>
    intro j s h
    by_cases hj2 : j = p2
    · have hj2' : p2 = j := hj2.symm
      subst hj2'
      rw [findAux_succ_some h2, if_pos rfl] at h
      have hs : p2 = s := Option.some.inj h
      subst hs
      have hg2 : Map.get (Map.set m p2 p1) p2 = some p1 := by
        rw [Map.get_set, if_pos rfl]
      rw [if_pos rfl, findAux_succ_some hg2, if_neg (fun hh : p1 = p2 => hne hh.symm)]
      refine findAux_self ?_ (Nat.succ_le_succ (Nat.zero_le k))
      rw [Map.get_set, if_neg hne]
      exact h1
    · have hgj' : ∀ q, Map.get m j = q → Map.get (Map.set m p2 p1) j = q := by
        intro q hq
        rw [Map.get_set, if_neg (fun hh : p2 = j => hj2 hh.symm)]
        exact hq
      cases hgj : Map.get m j with
      | none => rw [findAux_succ_none hgj] at h; cases h
      | some q =>
        rw [findAux_succ_some hgj] at h
        rw [findAux_succ_some (hgj' _ hgj)]
        by_cases hq : q = j
        · rw [if_pos hq] at h ⊢
          have hsq : s ≠ p2 := by
            rw [← Option.some.inj h, hq]
            exact hj2
          rwa [if_neg hsq]
        · rw [if_neg hq] at h ⊢
          exact ih h

theorem findAux_dead [DecidableEq α] {m m' : Map α α} {r : α}
    (hchanged : ∀ j, Map.get m' j ≠ Map.get m j → Map.get m j = some j)
    (hdead : ∀ n2, findAux m' n2 r = none) :
    ∀ {n e}, findAux m n e = some r → ∀ (n1 : Nat), findAux m' n1 e = none := by
  intro n
  induction n with
  | zero => intro e h; cases h
  | succ k ih =>
    intro e h n1
    cases hg : Map.get m e with
    | none => rw [findAux_succ_none hg] at h; cases h
    | some p =>
      rw [findAux_succ_some hg] at h
      by_cases hp : p = e
      · rw [if_pos hp] at h
        have hpr : p = r := Option.some.inj h
        rw [hp] at hpr
        rw [hpr]
        exact hdead n1
      · rw [if_neg hp] at h
        have hge : Map.get m' e = some p := by
          by_cases hc : Map.get m' e = Map.get m e
          · rw [hc, hg]
          · have hroot := hchanged e hc
            rw [hg] at hroot
            exact absurd (Option.some.inj hroot) hp
        cases n1 with
        | zero => rfl
        | succ k1 =>
          rw [findAux_succ_some hge, if_neg hp]
          exact ih h k1

theorem findShortenAux_zero [DecidableEq α] (m : Map α α) (e : α) :
    findShortenAux 0 m e = (none, m) := rfl

theorem findShortenAux_succ_none [DecidableEq α] {m : Map α α} {e : α}
    (hg : Map.get m e = none) (n : Nat) : findShortenAux (n + 1) m e = (none, m) := by
  have hd : findShortenAux (n + 1) m e =
      match Map.get m e with
      | none => (none, m)
      | some p =>
        if p = e then (some p, m)
        else
          match findShortenAux n m p with
          | (none, m') => (none, m')
          | (some r, m') => (some r, Map.set m' e r) := rfl
  rw [hd, hg]

theorem findShortenAux_succ_self [DecidableEq α] {m : Map α α} {e p : α}
    (hg : Map.get m e = some p) (hp : p = e) (n : Nat) :
    findShortenAux (n + 1) m e = (some p, m) := by
  have hd : findShortenAux (n + 1) m e =
      match Map.get m e with
      | none => (none, m)
      | some q =>
        if q = e then (some q, m)
        else
          match findShortenAux n m q with
          | (none, m') => (none, m')
          | (some r, m') => (some r, Map.set m' e r) := rfl
  rw [hd, hg]
  exact if_pos hp

theorem findShortenAux_succ_step [DecidableEq α] {m : Map α α} {e p : α}
    (hg : Map.get m e = some p) (hp : p ≠ e) (n : Nat) :
    findShortenAux (n + 1) m e =
      match findShortenAux n m p with
      | (none, m') => (none, m')
      | (some r, m') => (some r, Map.set m' e r) := by
  have hd : findShortenAux (n + 1) m e =
      match Map.get m e with
      | none => (none, m)
      | some q =>
        if q = e then (some q, m)
        else
          match findShortenAux n m q with
          | (none, m') => (none, m')
          | (some r, m') => (some r, Map.set m' e r) := rfl
  rw [hd, hg]
  exact if_neg hp

theorem findShortenAux_fst [DecidableEq α] :
    ∀ (n : Nat) (m : Map α α) (e : α), (findShortenAux n m e).1 = findAux m n e := by
  intro n
  induction n with
  | zero => intro m e; rfl
  | succ k ih =>
    intro m e
    cases hg : Map.get m e with
    | none => rw [findShortenAux_succ_none hg, findAux_succ_none hg]
    | some p =>
      by_cases hp : p = e
      · rw [findShortenAux_succ_self hg hp, findAux_succ_some hg, if_pos hp]
      · rw [findShortenAux_succ_step hg hp, findAux_succ_some hg, if_neg hp,
          show findAux m k p = (findShortenAux k m p).1 from (ih m p).symm]
        cases findShortenAux k m p with
        | mk res m1 =>
          cases res with
          | none => rfl
          | some r => rfl

theorem findShortenAux_none [DecidableEq α] :
    ∀ {n : Nat} {m : Map α α} {e : α}, (findShortenAux n m e).1 = none →
      (findShortenAux n m e).2 = m := by
  intro n
  induction n with
  | zero => intro m e _; rfl
  | succ k ih =>
    intro m e h
    cases hg : Map.get m e with
    | none => rw [findShortenAux_succ_none hg]
    | some p =>
      by_cases hp : p = e
      · rw [findShortenAux_succ_self hg hp]
      · rw [findShortenAux_succ_step hg hp] at h ⊢
        cases hfs : findShortenAux k m p with
        | mk res m1 =>
          rw [hfs] at h
          cases res with
          | none =>
            have h2 : (findShortenAux k m p).2 = m := ih (by rw [hfs])
            rw [hfs] at h2
            exact h2
          | some r => exact Option.noConfusion h

theorem findShortenAux_get [DecidableEq α] :
    ∀ {n : Nat} {m : Map α α} {e r : α}, (findShortenAux n m e).1 = some r →
      ∀ (j : α), Map.get (findShortenAux n m e).2 j = Map.get m j ∨
           Map.get (findShortenAux n m e).2 j = some r := by
  intro n
  induction n with
  | zero => intro m e r h; cases h
  | succ k ih =>
    intro m e r h j
    cases hg : Map.get m e with
    | none => rw [findShortenAux_succ_none hg] at h; cases h
    | some p =>
      by_cases hp : p = e
      · rw [findShortenAux_succ_self hg hp]
        left; rfl
      · rw [findShortenAux_succ_step hg hp] at h ⊢
        cases hfs : findShortenAux k m p with
        | mk res m1 =>
          rw [hfs] at h
          cases res with
          | none => exact Option.noConfusion h
          | some r1 =>
            have hr : r1 = r := Option.some.inj h
            show Map.get (Map.set m1 e r1) j = Map.get m j ∨
              Map.get (Map.set m1 e r1) j = some r
            rw [Map.get_set]
            by_cases hej : e = j
            · right; rw [if_pos hej, hr]
            · rw [if_neg hej]
              have h3 := ih (show (findShortenAux k m p).1 = some r1 by rw [hfs]) j
              rw [hfs] at h3
              rw [hr] at h3
              exact h3

theorem findShortenAux_get_none [DecidableEq α] :
    ∀ {n : Nat} {m : Map α α} {e j : α}, Map.get m j = none →
      Map.get (findShortenAux n m e).2 j = none := by
  intro n
  induction n with
  | zero => intro m e j h; exact h
  | succ k ih =>
    intro m e j h
    cases hg : Map.get m e with
    | none => rw [findShortenAux_succ_none hg]; exact h
    | some p =>
      by_cases hp : p = e
      · rw [findShortenAux_succ_self hg hp]; exact h
      · rw [findShortenAux_succ_step hg hp]
        have h1 : Map.get ((findShortenAux k m p).2) j = none := @ih m p j h
        cases hfs : findShortenAux k m p with
        | mk res m1 =>
          rw [hfs] at h1
          cases res with
          | none => exact h1
          | some r =>
            have hej : e ≠ j := by
              intro hej
              rw [hej, h] at hg
              exact Option.noConfusion hg
            show Map.get (Map.set m1 e r) j = none
            rw [Map.get_set, if_neg hej]
            exact h1

theorem findShortenAux_length [DecidableEq α] :
    ∀ (n : Nat) (m : Map α α) (e : α), m.length ≤ ((findShortenAux n m e).2).length := by
  intro n
  induction n with
  | zero => intro m e; exact Nat.le_refl _
  | succ k ih =>
    intro m e
    cases hg : Map.get m e with
    | none => rw [findShortenAux_succ_none hg]
    | some p =>
      by_cases hp : p = e
      · rw [findShortenAux_succ_self hg hp]
      · rw [findShortenAux_succ_step hg hp]
        have h1 := ih m p
        cases hfs : findShortenAux k m p with
        | mk res m1 =>
          rw [hfs] at h1
          cases res with
          | none => exact h1
          | some r => exact Nat.le_trans h1 (Nat.le_succ _)

theorem findShortenAux_root_stable [DecidableEq α] :
    ∀ {n : Nat} {m : Map α α} {e j : α}, Map.get m j = some j →
      Map.get (findShortenAux n m e).2 j = some j := by
  intro n
  induction n with
  | zero => intro m e j h; exact h
  | succ k ih =>
    intro m e j h
    cases hg : Map.get m e with
    | none => rw [findShortenAux_succ_none hg]; exact h
    | some p =>
      by_cases hp : p = e
      · rw [findShortenAux_succ_self hg hp]; exact h
      · rw [findShortenAux_succ_step hg hp]
        have h1 : Map.get ((findShortenAux k m p).2) j = some j := @ih m p j h
        cases hfs : findShortenAux k m p with
        | mk res m1 =>
          rw [hfs] at h1
          cases res with
          | none => exact h1
          | some r =>
            have hej : e ≠ j := by
              intro hej
              rw [← hej] at h
              rw [h] at hg
              exact hp (Option.some.inj hg).symm
            show Map.get (Map.set m1 e r) j = some j
            rw [Map.get_set, if_neg hej]
            exact h1

theorem findShortenAux_present [DecidableEq α] {n : Nat} {m : Map α α} {e : α} (j : α) :
    Map.get (findShortenAux n m e).2 j = none ↔ Map.get m j = none := by
  constructor
  · intro h
    cases hg : Map.get m j with
    | none => rfl
    | some v =>
      cases hres : (findShortenAux n m e).1 with
      | none =>
        rw [findShortenAux_none hres, hg] at h
        exact h
      | some r =>
        rcases findShortenAux_get hres j with h1 | h1
        · rw [h1, hg] at h; exact h
        · rw [h1] at h; exact Option.noConfusion h
  · intro h
    exact findShortenAux_get_none h

theorem findShortenAux_preserve [DecidableEq α] :
    ∀ {n : Nat} {m : Map α α} {e r : α}, (findShortenAux n m e).1 = some r →
      ∀ {n1 : Nat} {j s : α}, findAux m n1 j = some s →
        findAux (findShortenAux n m e).2 n1 j = some s := by
  intro n
  induction n with
  | zero => intro m e r h; cases h
  | succ k ih =>
    intro m e r h n1 j s hin
    cases hg : Map.get m e with
    | none => rw [findShortenAux_succ_none hg] at h; cases h
    | some p =>
      by_cases hp : p = e
      · rw [findShortenAux_succ_self hg hp]
        exact hin
      · rw [findShortenAux_succ_step hg hp] at h ⊢
        cases hfs : findShortenAux k m p with
        | mk res m1 =>
          rw [hfs] at h
          cases res with
          | none => exact Option.noConfusion h
          | some r1 =>
            have hfst : (findShortenAux k m p).1 = some r1 := by rw [hfs]
            have hin1 : findAux m1 n1 j = some s := by
              have h4 := ih hfst hin
              rw [hfs] at h4
              exact h4
            have hp_or : Map.get m1 e = Map.get m e ∨ Map.get m1 e = some r1 := by
              have h4 := findShortenAux_get hfst e
              rw [hfs] at h4
              exact h4
            have hroot_m : Map.get m r1 = some r1 := by
              have hf : findAux m k p = some r1 := by
                rw [← findShortenAux_fst k m p, hfs]
              exact findAux_root hf
            have hr1e : r1 ≠ e := by
              intro hh
              rw [hh] at hroot_m
              rw [hg] at hroot_m
              exact hp (Option.some.inj hroot_m)
            have hroot_m1 : Map.get m1 r1 = some r1 := by
              have h4 := @findShortenAux_root_stable α _ k m p r1 hroot_m
              rw [hfs] at h4
              exact h4
            rcases (show ∃ p', Map.get m1 e = some p' ∧ p' ≠ e by
              rcases hp_or with h1 | h1
              · exact ⟨p, by rw [h1, hg], hp⟩
              · exact ⟨r1, h1, hr1e⟩) with ⟨p', hgp', hp'e⟩
            have hroot_e : ∃ n0, findAux m1 n0 e = some r1 := by
              refine ⟨k + 1, ?_⟩
              have hfe : findAux m (k + 1) e = some r1 := by
                rw [findAux_succ_some hg, if_neg hp, ← findShortenAux_fst k m p, hfs]
              have h4 := ih hfst hfe
              rw [hfs] at h4
              exact h4
            exact findAux_set_root hgp' hp'e hroot_m1 hroot_e hin1

theorem InvP_iff [DecidableEq α] (m : Map α α) :
    InvP m ↔ ∀ k, Map.get m k ≠ none → (findAux m (m.length + 1) k).isSome := by
  constructor
  · intro h k hk
    cases hg : Map.get m k with
    | none => exact absurd hg hk
    | some v => exact h (k, v) (Map.get_mem hg)
  · intro h kv hkv
    exact h kv.1 (Map.mem_get hkv)

theorem KeysEq_iff [DecidableEq α] (uf : UnionFind α) :
    KeysEq uf ↔ ∀ k, (Map.get uf.parent k ≠ none ↔ Map.get uf.extra.mapping k ≠ none) := by
  constructor
  · intro h k
    constructor
    · intro hk
      cases hg : Map.get uf.parent k with
      | none => exact absurd hg hk
      | some v => exact h.1 (k, v) (Map.get_mem hg)
    · intro hk
      cases hg : Map.get uf.extra.mapping k with
      | none => exact absurd hg hk
      | some v => exact h.2 (k, v) (Map.get_mem hg)
  · intro h
    constructor
    · intro kv hkv
      exact (h kv.1).mp (Map.mem_get hkv)
    · intro kv hkv
      exact (h kv.1).mpr (Map.mem_get hkv)

theorem identity_map_get [DecidableEq α] :
    ∀ {xs : List α} {m : Map α α}, Map.identity_map xs = some m →
      ∀ k, Map.get m k = some k ∨ Map.get m k = none := by
  intro xs
  induction xs with
  | nil =>
    intro m h k
    have hm : m = [] := (Option.some.inj h).symm
    subst hm
    right; rfl
  | cons x xs ih =>
    intro m h k
    have hstep : Map.identity_map (x :: xs) =
        (Map.identity_map xs).bind (fun m => Map.add m x x) := rfl
    rw [hstep] at h
    cases hxs : Map.identity_map xs with
    | none => rw [hxs] at h; cases h
    | some m0 =>
      rw [hxs, Option.some_bind] at h
      rcases Map.add_eq_some h with ⟨hget, hm⟩
      subst hm
      rw [Map.get_set]
      by_cases hxk : x = k
      · left; rw [if_pos hxk, hxk]
      · rw [if_neg hxk]
        exact ih hxs k

theorem identity_map_present [DecidableEq α] :
    ∀ {xs : List α} {m : Map α α}, Map.identity_map xs = some m →
      ∀ k, (Map.get m k ≠ none ↔ k ∈ xs) := by
  intro xs
  induction xs with
  | nil =>
    intro m h k
    have hm : m = [] := (Option.some.inj h).symm
    subst hm
    simp [Map.get]
  | cons x xs ih =>
    intro m h k
    have hstep : Map.identity_map (x :: xs) =
        (Map.identity_map xs).bind (fun m => Map.add m x x) := rfl
    rw [hstep] at h
    cases hxs : Map.identity_map xs with
    | none => rw [hxs] at h; cases h
    | some m0 =>
      rw [hxs, Option.some_bind] at h
      rcases Map.add_eq_some h with ⟨hget, hm⟩
      subst hm
      rw [Map.get_set]
      by_cases hxk : x = k
      · simp [if_pos hxk, ← hxk]
      · rw [if_neg hxk]
        rw [ih hxs k]
        constructor
        · intro hk; exact List.mem_cons_of_mem _ hk
        · intro hk
          rcases List.mem_cons.mp hk with h1 | h1
          · exact absurd h1.symm hxk
          · exact h1

theorem zero_map_present [DecidableEq α] :
    ∀ {xs : List α} {m : Map α Nat}, Map.zero_map xs = some m →
      ∀ k, (Map.get m k ≠ none ↔ k ∈ xs) := by
  intro xs
  induction xs with
  | nil =>
    intro m h k
    have hm : m = [] := (Option.some.inj h).symm
    subst hm
    simp [Map.get]
  | cons x xs ih =>
    intro m h k
    have hstep : Map.zero_map (x :: xs) =
        (Map.zero_map xs).bind (fun m => Map.add m x 0) := rfl
    rw [hstep] at h
    cases hxs : Map.zero_map xs with
    | none => rw [hxs] at h; cases h
    | some m0 =>
      rw [hxs, Option.some_bind] at h
      rcases Map.add_eq_some h with ⟨hget, hm⟩
      subst hm
      rw [Map.get_set]
      by_cases hxk : x = k
      · simp [if_pos hxk, ← hxk]
      · rw [if_neg hxk]
        rw [ih hxs k]
        constructor
        · intro hk; exact List.mem_cons_of_mem _ hk
        · intro hk
          rcases List.mem_cons.mp hk with h1 | h1
          · exact absurd h1.symm hxk
          · exact h1

theorem new_eq_some [DecidableEq α] {elems : List α} {uf : UnionFind α}
    (h : UnionFind.new elems = some uf) :
    Map.identity_map elems = some uf.parent ∧
      Map.zero_map elems = some uf.extra.mapping := by
  unfold UnionFind.new at h
  cases hid : Map.identity_map elems with
  | none => rw [hid] at h; cases h
  | some p =>
    rw [hid] at h
    cases hz : Map.zero_map elems with
    | none => rw [hz] at h; cases h
    | some z =>
      rw [hz] at h
      have huf := Option.some.inj h
      rw [← huf]
      exact ⟨rfl, rfl⟩

theorem new_inv [DecidableEq α] {elems : List α} {uf : UnionFind α}
    (h : UnionFind.new elems = some uf) : Inv uf := by
  rcases new_eq_some h with ⟨hid, hz⟩
  constructor
  · rw [InvP_iff]
    intro k hk
    rcases identity_map_get hid k with h1 | h1
    · rw [findAux_self h1 (Nat.succ_le_succ (Nat.zero_le _))]
      rfl
    · exact absurd h1 hk
  · rw [KeysEq_iff]
    intro k
    rw [identity_map_present hid k, zero_map_present hz k]

theorem present_set [DecidableEq α] {m : Map α β} {k : α} (v : β)
    (hk : Map.get m k ≠ none) (j : α) :
    Map.get (Map.set m k v) j = none ↔ Map.get m j = none := by
  rw [Map.get_set]
  by_cases hkj : k = j
  · rw [if_pos hkj]
    constructor
    · intro h; exact Option.noConfusion h
    · intro h; rw [← hkj] at h; exact absurd h hk
  · rw [if_neg hkj]

theorem invP_set_self [DecidableEq α] {m : Map α α} {k : α} {v : α}
    (hk : Map.get m k = some v) (h : InvP m) : InvP (Map.set m k v) := by
  rw [InvP_iff] at h ⊢
  intro j hj
  have hgeq : ∀ i, Map.get m i = Map.get (Map.set m k v) i := by
    intro i
    rw [Map.get_set]
    by_cases hki : k = i
    · rw [if_pos hki, ← hki, hk]
    · rw [if_neg hki]
  have hj' : Map.get m j ≠ none := by rwa [hgeq j]
  have h1 := h j hj'
  cases hf : findAux m (m.length + 1) j with
  | none => rw [hf] at h1; exact absurd h1 (by simp)
  | some r =>
    have h2 : findAux (Map.set m k v) (m.length + 1) j = some r := by
      rw [← findAux_congr hgeq]
      exact hf
    rw [show (Map.set m k v).length + 1 = m.length + 1 + 1 from rfl,
      findAux_mono h2 (Nat.le_succ _)]
    rfl

theorem invP_link [DecidableEq α] {m : Map α α} {p1 p2 : α}
    (h1 : Map.get m p1 = some p1) (h2 : Map.get m p2 = some p2) (hne : p2 ≠ p1)
    (h : InvP m) : InvP (Map.set m p2 p1) := by
  rw [InvP_iff] at h ⊢
  intro j hj
  have hj' : Map.get m j ≠ none :=
    fun hn => hj ((present_set p1 (by rw [h2]; simp) j).mpr hn)
  have h0 := h j hj'
  cases hf : findAux m (m.length + 1) j with
  | none => rw [hf] at h0; exact absurd h0 (by simp)
  | some s =>
    have h3 := findAux_link h1 h2 hne hf
    rw [show (Map.set m p2 p1).length + 1 = m.length + 1 + 1 from rfl, h3]
    rfl

theorem invP_add [DecidableEq α] {m : Map α α} {x : α}
    (hx : Map.get m x = none) (h : InvP m) : InvP (Map.set m x x) := by
  rw [InvP_iff] at h ⊢
  intro j hj
  by_cases hxj : x = j
  · have hself : Map.get (Map.set m x x) j = some j := by
      rw [Map.get_set, if_pos hxj, hxj]
    rw [findAux_self hself (Nat.succ_le_succ (Nat.zero_le _))]
    rfl
  · have hgj : Map.get (Map.set m x x) j = Map.get m j := by
      rw [Map.get_set, if_neg hxj]
    have hj' : Map.get m j ≠ none := by rwa [hgj] at hj
    have h0 := h j hj'
    cases hf : findAux m (m.length + 1) j with
    | none => rw [hf] at h0; exact absurd h0 (by simp)
    | some s =>
      have hext : ∀ i v, Map.get m i = some v → Map.get (Map.set m x x) i = some v := by
        intro i v hv
        rw [Map.get_set]
        by_cases hxi : x = i
        · rw [← hxi] at hv; rw [hv] at hx; cases hx
        · rw [if_neg hxi]; exact hv
      rw [show (Map.set m x x).length + 1 = m.length + 1 + 1 from rfl,
        findAux_mono (findAux_extend hext hf) (Nat.le_succ _)]
      rfl

theorem invP_fs [DecidableEq α] {m : Map α α} (n : Nat) (e : α)
    (h : InvP m) : InvP (findShortenAux n m e).2 := by
  cases hres : (findShortenAux n m e).1 with
  | none => rw [findShortenAux_none hres]; exact h
  | some r =>
    rw [InvP_iff] at h ⊢
    intro j hj
    have hj' : Map.get m j ≠ none := fun hn => hj (findShortenAux_get_none hn)
    have h0 := h j hj'
    cases hf : findAux m (m.length + 1) j with
    | none => rw [hf] at h0; exact absurd h0 (by simp)
    | some s =>
      rw [findAux_mono (findShortenAux_preserve hres hf)
        (Nat.succ_le_succ (findShortenAux_length n m e))]
      rfl

theorem find_pres_fs [DecidableEq α] {m : Map α α} (n : Nat) (e : α)
    (h : InvP m) (j : α) :
    findAux (findShortenAux n m e).2 ((findShortenAux n m e).2.length + 1) j =
      findAux m (m.length + 1) j := by
  cases hres : (findShortenAux n m e).1 with
  | none => rw [findShortenAux_none hres]
  | some r =>
    cases hgj : Map.get m j with
    | none =>
      rw [findAux_get_none hgj, findAux_get_none (findShortenAux_get_none hgj)]
    | some v =>
      have hj' : Map.get m j ≠ none := by rw [hgj]; simp
      have h0 := (InvP_iff m).mp h j hj'
      cases hf : findAux m (m.length + 1) j with
      | none => rw [hf] at h0; exact absurd h0 (by simp)
      | some s =>
        exact findAux_mono (findShortenAux_preserve hres hf)
          (Nat.succ_le_succ (findShortenAux_length n m e))

theorem fs_fst [DecidableEq α] (uf : UnionFind α) (e : α) :
    (UnionFind.find_shorten uf e).1 = UnionFind.find uf e :=
  findShortenAux_fst _ _ _

theorem fs_snd_extra [DecidableEq α] (uf : UnionFind α) (e : α) :
    (UnionFind.find_shorten uf e).2.extra = uf.extra := rfl

theorem find_pres_fs_uf [DecidableEq α] {uf : UnionFind α} (e : α)
    (h : InvP uf.parent) (j : α) :
    UnionFind.find (UnionFind.find_shorten uf e).2 j = UnionFind.find uf j :=
  find_pres_fs _ _ h j

theorem inv_fs_uf [DecidableEq α] {uf : UnionFind α} (e : α)
    (h : Inv uf) : Inv (UnionFind.find_shorten uf e).2 := by
  refine ⟨invP_fs _ _ h.1, ?_⟩
  rw [KeysEq_iff]
  intro k
  have h2 := (KeysEq_iff uf).mp h.2 k
  constructor
  · intro hk
    exact h2.mp (fun hn => hk (findShortenAux_get_none hn))
  · intro hk hn
    exact h2.mpr hk ((findShortenAux_present k).mp hn)

theorem union_helper_equiv [DecidableEq α] {ε : Type} (uf : UnionFind α) (p : α)
    (u : α → α → Except ε α) :
    UnionFind.union_helper uf p p u = (Except.ok UnionStatus.AlreadyEquivalent, uf) := by
  unfold UnionFind.union_helper
  rw [if_pos rfl]

theorem union_helper_ne [DecidableEq α] {ε : Type} (uf : UnionFind α) {p1 p2 : α}
    (hne : p1 ≠ p2) (u : α → α → Except ε α) :
    UnionFind.union_helper uf p1 p2 u =
      match u p1 p2 with
      | Except.error e => (Except.error e, uf)
      | Except.ok res =>
        (Except.ok UnionStatus.PerformedUnion,
         { uf with parent := Map.set (Map.set uf.parent p1 res) p2 res }) := by
  unfold UnionFind.union_helper
  rw [if_neg hne]

theorem fs_pair [DecidableEq α] {uf : UnionFind α} {e : α} {o : Option α}
    (h : (UnionFind.find_shorten uf e).1 = o) :
    UnionFind.find_shorten uf e = (o, (UnionFind.find_shorten uf e).2) := by
  rw [← h]

theorem union_by_none1 [DecidableEq α] {ε : Type} {uf uf1 : UnionFind α} {e1 : α}
    (h : UnionFind.find_shorten uf e1 = (none, uf1)) (e2 : α) (u : α → α → Except ε α) :
    UnionFind.union_by uf e1 e2 u = (Except.error UnionError.Elem1NotFound, uf1) := by
  simp only [UnionFind.union_by, h]

theorem union_by_none2 [DecidableEq α] {ε : Type} {uf uf1 uf2 : UnionFind α}
    {e1 e2 p1 : α}
    (h1 : UnionFind.find_shorten uf e1 = (some p1, uf1))
    (h2 : UnionFind.find_shorten uf1 e2 = (none, uf2)) (u : α → α → Except ε α) :
    UnionFind.union_by uf e1 e2 u = (Except.error UnionError.Elem2NotFound, uf2) := by
  simp only [UnionFind.union_by, h1, h2]

theorem union_by_some [DecidableEq α] {ε : Type} {uf uf1 uf2 : UnionFind α}
    {e1 e2 p1 p2 : α}
    (h1 : UnionFind.find_shorten uf e1 = (some p1, uf1))
    (h2 : UnionFind.find_shorten uf1 e2 = (some p2, uf2)) (u : α → α → Except ε α) :
    UnionFind.union_by uf e1 e2 u =
      match UnionFind.union_helper uf2 p1 p2 u with
      | (Except.ok s, uf3) => (Except.ok s, uf3)
      | (Except.error err, uf3) => (Except.error (UnionError.NotUnionable err), uf3) := by
  simp only [UnionFind.union_by, h1, h2]

theorem ubr_none1 [DecidableEq α] {uf uf1 : UnionFind α} {e1 : α}
    (h : UnionFind.find_shorten uf e1 = (none, uf1)) (e2 : α) :
    UnionFind.union_by_rank uf e1 e2 =
      (Except.error UnionByRankError.Elem1NotFound, uf1) := by
  simp only [UnionFind.union_by_rank, h]

theorem ubr_none2 [DecidableEq α] {uf uf1 uf2 : UnionFind α} {e1 e2 p1 : α}
    (h1 : UnionFind.find_shorten uf e1 = (some p1, uf1))
    (h2 : UnionFind.find_shorten uf1 e2 = (none, uf2)) :
    UnionFind.union_by_rank uf e1 e2 =
      (Except.error UnionByRankError.Elem2NotFound, uf2) := by
  simp only [UnionFind.union_by_rank, h1, h2]

theorem ubr_some [DecidableEq α] {uf uf1 uf2 : UnionFind α} {e1 e2 p1 p2 : α}
    (h1 : UnionFind.find_shorten uf e1 = (some p1, uf1))
    (h2 : UnionFind.find_shorten uf1 e2 = (some p2, uf2)) :
    UnionFind.union_by_rank uf e1 e2 = UnionFind.union_by_rank_helper uf2 p1 p2 := by
  simp only [UnionFind.union_by_rank, h1, h2]

theorem ubrh_equiv [DecidableEq α] (uf : UnionFind α) (p : α) :
    UnionFind.union_by_rank_helper uf p p =
      (Except.ok UnionStatus.AlreadyEquivalent, uf) := by
  unfold UnionFind.union_by_rank_helper
  rw [if_pos rfl]

theorem ubrh_norank1 [DecidableEq α] {uf : UnionFind α} {p1 p2 : α}
    (hne : p1 ≠ p2) (hr1 : ByRank.rank uf.extra p1 = none) :
    UnionFind.union_by_rank_helper uf p1 p2 =
      (Except.error UnionByRankError.Elem1NotFound, uf) := by
  unfold UnionFind.union_by_rank_helper
  rw [if_neg hne, hr1]

theorem ubrh_norank2 [DecidableEq α] {uf : UnionFind α} {p1 p2 : α} {k1 : Nat}
    (hne : p1 ≠ p2) (hr1 : ByRank.rank uf.extra p1 = some k1)
    (hr2 : ByRank.rank uf.extra p2 = none) :
    UnionFind.union_by_rank_helper uf p1 p2 =
      (Except.error UnionByRankError.Elem2NotFound, uf) := by
  unfold UnionFind.union_by_rank_helper
  rw [if_neg hne, hr1, hr2]

theorem ubrh_lt [DecidableEq α] {uf : UnionFind α} {p1 p2 : α} {k1 k2 : Nat}
    (hne : p1 ≠ p2) (hr1 : ByRank.rank uf.extra p1 = some k1)
    (hr2 : ByRank.rank uf.extra p2 = some k2) (hcmp : k1 < k2) :
    UnionFind.union_by_rank_helper uf p1 p2 =
      (Except.ok UnionStatus.PerformedUnion,
       { uf with parent := Map.set uf.parent p1 p2 }) := by
  have hc : compare k1 k2 = Ordering.lt := Nat.compare_eq_lt.mpr hcmp
  simp only [UnionFind.union_by_rank_helper, if_neg hne, hr1, hr2, hc]

theorem ubrh_eq [DecidableEq α] {uf : UnionFind α} {p1 p2 : α} {k1 k2 : Nat}
    (hne : p1 ≠ p2) (hr1 : ByRank.rank uf.extra p1 = some k1)
    (hr2 : ByRank.rank uf.extra p2 = some k2) (hcmp : k1 = k2) :
    UnionFind.union_by_rank_helper uf p1 p2 =
      (Except.ok UnionStatus.PerformedUnion,
       { uf with parent := Map.set uf.parent p1 p2,
                 extra := ByRank.set_rank uf.extra p2 ((k2 + 1) % usizeSize) }) := by
  have hc : compare k1 k2 = Ordering.eq := Nat.compare_eq_eq.mpr hcmp
  simp only [UnionFind.union_by_rank_helper, if_neg hne, hr1, hr2, hc]

theorem ubrh_gt [DecidableEq α] {uf : UnionFind α} {p1 p2 : α} {k1 k2 : Nat}
    (hne : p1 ≠ p2) (hr1 : ByRank.rank uf.extra p1 = some k1)
    (hr2 : ByRank.rank uf.extra p2 = some k2) (hcmp : k2 < k1) :
    UnionFind.union_by_rank_helper uf p1 p2 =
      (Except.ok UnionStatus.PerformedUnion,
       { uf with parent := Map.set uf.parent p2 p1 }) := by
  have hc : compare k1 k2 = Ordering.gt := Nat.compare_eq_gt.mpr hcmp
  simp only [UnionFind.union_by_rank_helper, if_neg hne, hr1, hr2, hc]

theorem add_identity_some [DecidableEq α] {m : Map α α} {e : α}
    (h : Map.get m e = none) : Map.add_identity m e = some (Map.set m e e) := by
  unfold Map.add_identity Map.add
  rw [h]

theorem add_identity_none [DecidableEq α] {m : Map α α} {e : α}
    (h : Map.get m e ≠ none) : Map.add_identity m e = none := by
  unfold Map.add_identity Map.add
  cases hg : Map.get m e with
  | none => exact absurd hg h
  | some v => rfl

theorem byrank_add_some [DecidableEq α] {b : ByRank α} {e : α} (v : Nat)
    (h : Map.get b.mapping e = none) :
    ByRank.add b e v = some ⟨Map.set b.mapping e (v % usizeSize)⟩ := by
  unfold ByRank.add Map.add
  rw [h]
  rfl

theorem byrank_add_none [DecidableEq α] {b : ByRank α} {e : α} (v : Nat)
    (h : Map.get b.mapping e ≠ none) : ByRank.add b e v = none := by
  unfold ByRank.add Map.add
  cases hg : Map.get b.mapping e with
  | none => exact absurd hg h
  | some w => rfl

theorem add_ok [DecidableEq α] {uf : UnionFind α} {e : α}
    (hp : Map.get uf.parent e = none) (hx : Map.get uf.extra.mapping e = none) :
    UnionFind.add uf e =
      (Except.ok (),
       { parent := Map.set uf.parent e e,
         extra := ⟨Map.set uf.extra.mapping e (0 % usizeSize)⟩ }) := by
  unfold UnionFind.add
  rw [add_identity_some hp, byrank_add_some 0 hx]

theorem add_err_parent [DecidableEq α] {uf : UnionFind α} {e : α}
    (hp : Map.get uf.parent e ≠ none) :
    UnionFind.add uf e = (Except.error AddError.Parent, uf) := by
  unfold UnionFind.add
  rw [add_identity_none hp]

theorem add_err_extra [DecidableEq α] {uf : UnionFind α} {e : α}
    (hp : Map.get uf.parent e = none) (hx : Map.get uf.extra.mapping e ≠ none) :
    UnionFind.add uf e =
      (Except.error AddError.Extra, { uf with parent := Map.set uf.parent e e }) := by
  unfold UnionFind.add
  rw [add_identity_some hp, byrank_add_none 0 hx]

theorem awe_ok [DecidableEq α] {uf : UnionFind α} {e : α} (v : Nat)
    (hp : Map.get uf.parent e = none) (hx : Map.get uf.extra.mapping e = none) :
    UnionFind.add_with_extra uf e v =
      (Except.ok (),
       { parent := Map.set uf.parent e e,
         extra := ⟨Map.set uf.extra.mapping e (v % usizeSize)⟩ }) := by
  unfold UnionFind.add_with_extra
  rw [add_identity_some hp, byrank_add_some v hx]

theorem awe_err_parent [DecidableEq α] {uf : UnionFind α} {e : α} (v : Nat)
    (hp : Map.get uf.parent e ≠ none) :
    UnionFind.add_with_extra uf e v = (Except.error AddError.Parent, uf) := by
  unfold UnionFind.add_with_extra
  rw [add_identity_none hp]

theorem awe_err_extra [DecidableEq α] {uf : UnionFind α} {e : α} (v : Nat)
    (hp : Map.get uf.parent e = none) (hx : Map.get uf.extra.mapping e ≠ none) :
    UnionFind.add_with_extra uf e v =
      (Except.error AddError.Extra, { uf with parent := Map.set uf.parent e e }) := by
  unfold UnionFind.add_with_extra
  rw [add_identity_some hp, byrank_add_none v hx]

theorem foa_found [DecidableEq α] {uf : UnionFind α} {e i : α}
    (h : UnionFind.find uf e = some i) :
    UnionFind.find_or_add uf e = some (i, uf) := by
  unfold UnionFind.find_or_add
  rw [h]

theorem foa_notfound [DecidableEq α] {uf : UnionFind α} {e : α}
    (h : UnionFind.find uf e = none) :
    UnionFind.find_or_add uf e =
      match UnionFind.add uf e with
      | (Except.ok _, uf') => some (e, uf')
      | (Except.error _, _) => none := by
  unfold UnionFind.find_or_add
  rw [h]

theorem find_none_absent [DecidableEq α] {uf : UnionFind α} {e : α}
    (h : InvP uf.parent) (hf : UnionFind.find uf e = none) :
    Map.get uf.parent e = none := by
  by_cases hg : Map.get uf.parent e = none
  · exact hg
  · have h0 := (InvP_iff _).mp h e hg
    rw [show UnionFind.find uf e =
      findAux uf.parent (uf.parent.length + 1) e from rfl] at hf
    rw [hf] at h0
    exact absurd h0 (by simp)

theorem fs_root_pre [DecidableEq α] {uf : UnionFind α} {e p : α}
    (h : (UnionFind.find_shorten uf e).1 = some p) : Map.get uf.parent p = some p := by
  rw [fs_fst] at h
  exact findAux_root h

theorem fs_root_post [DecidableEq α] {uf : UnionFind α} {e p : α}
    (h : (UnionFind.find_shorten uf e).1 = some p) :
    Map.get (UnionFind.find_shorten uf e).2.parent p = some p :=
  findShortenAux_root_stable (fs_root_pre h)

theorem keysEq_parent_set [DecidableEq α] (uf : UnionFind α) (k v : α)
    (hk : Map.get uf.parent k ≠ none) (h : KeysEq uf) :
    KeysEq { uf with parent := Map.set uf.parent k v } := by
  rw [KeysEq_iff]
  intro j
  have h2 := (KeysEq_iff uf).mp h j
  constructor
  · intro hj
    exact h2.mp (fun hn => hj ((present_set v hk j).mpr hn))
  · intro hj hn
    exact h2.mpr hj ((present_set v hk j).mp hn)

theorem keysEq_extra_set [DecidableEq α] (uf : UnionFind α) (k : α) (v : Nat)
    (hk : Map.get uf.extra.mapping k ≠ none) (h : KeysEq uf) :
    KeysEq { uf with extra := ByRank.set_rank uf.extra k v } := by
  rw [KeysEq_iff]
  intro j
  have h2 := (KeysEq_iff uf).mp h j
  constructor
  · intro hj hn
    exact (h2.mp hj) ((present_set v hk j).mp hn)
  · intro hj
    exact h2.mpr (fun hn => hj ((present_set v hk j).mpr hn))

theorem keysEq_absent [DecidableEq α] {uf : UnionFind α} {e : α}
    (h : KeysEq uf) (hp : Map.get uf.parent e = none) :
    Map.get uf.extra.mapping e = none := by
  by_cases hxx : Map.get uf.extra.mapping e = none
  · exact hxx
  · exact absurd hp (((KeysEq_iff uf).mp h e).mpr hxx)

theorem inv_union_helper [DecidableEq α] {ε : Type} {uf : UnionFind α} {p1 p2 : α}
    {u : α → α → Except ε α}
    (hroot1 : Map.get uf.parent p1 = some p1) (hroot2 : Map.get uf.parent p2 = some p2)
    (hgood : GoodStrategy u) (h : Inv uf) :
    Inv (UnionFind.union_helper uf p1 p2 u).2 := by
  by_cases hpp : p1 = p2
  · rw [hpp, union_helper_equiv]
    exact h
  · rw [union_helper_ne uf hpp u]
    cases hu : u p1 p2 with
    | error err => exact h
    | ok res =>
      rcases hgood p1 p2 res hu with hres | hres
      · have hres' : p1 = res := hres.symm
        subst hres'
        constructor
        · have hin1 : InvP (Map.set uf.parent p1 p1) := invP_set_self hroot1 h.1
          have hg1 : Map.get (Map.set uf.parent p1 p1) p1 = some p1 := by
            rw [Map.get_set, if_pos rfl]
          have hg2 : Map.get (Map.set uf.parent p1 p1) p2 = some p2 := by
            rw [Map.get_set, if_neg hpp]
            exact hroot2
          exact invP_link hg1 hg2 (fun hh : p2 = p1 => hpp hh.symm) hin1
        · have hk1 : KeysEq { uf with parent := Map.set uf.parent p1 p1 } :=
            keysEq_parent_set uf p1 p1 (by rw [hroot1]; simp) h.2
          exact keysEq_parent_set { uf with parent := Map.set uf.parent p1 p1 } p2 p1
            (by show Map.get (Map.set uf.parent p1 p1) p2 ≠ none
                rw [Map.get_set, if_neg hpp, hroot2]; simp) hk1
      · have hres' : p2 = res := hres.symm
        subst hres'
        constructor
        · have hin1 : InvP (Map.set uf.parent p1 p2) :=
            invP_link hroot2 hroot1 hpp h.1
          have hg2 : Map.get (Map.set uf.parent p1 p2) p2 = some p2 := by
            rw [Map.get_set, if_neg hpp]
            exact hroot2
          exact invP_set_self hg2 hin1
        · have hk1 : KeysEq { uf with parent := Map.set uf.parent p1 p2 } :=
            keysEq_parent_set uf p1 p2 (by rw [hroot1]; simp) h.2
          exact keysEq_parent_set { uf with parent := Map.set uf.parent p1 p2 } p2 p2
            (by show Map.get (Map.set uf.parent p1 p2) p2 ≠ none
                rw [Map.get_set, if_neg hpp, hroot2]; simp) hk1

theorem inv_ubrh [DecidableEq α] {uf : UnionFind α} {p1 p2 : α}
    (hroot1 : Map.get uf.parent p1 = some p1) (hroot2 : Map.get uf.parent p2 = some p2)
    (h : Inv uf) : Inv (UnionFind.union_by_rank_helper uf p1 p2).2 := by
  by_cases hpp : p1 = p2
  · rw [hpp, ubrh_equiv]
    exact h
  · cases hr1 : ByRank.rank uf.extra p1 with
    | none => rw [ubrh_norank1 hpp hr1]; exact h
    | some k1 =>
      cases hr2 : ByRank.rank uf.extra p2 with
      | none => rw [ubrh_norank2 hpp hr1 hr2]; exact h
      | some k2 =>
        rcases Nat.lt_trichotomy k1 k2 with hc | hc | hc
        · rw [ubrh_lt hpp hr1 hr2 hc]
          exact ⟨invP_link hroot2 hroot1 hpp h.1,
            keysEq_parent_set uf p1 p2 (by rw [hroot1]; simp) h.2⟩
        · rw [ubrh_eq hpp hr1 hr2 hc]
          constructor
          · exact invP_link hroot2 hroot1 hpp h.1
          · have hk1 : KeysEq
                { uf with extra := ByRank.set_rank uf.extra p2 ((k2 + 1) % usizeSize) } :=
              keysEq_extra_set uf p2 ((k2 + 1) % usizeSize) (by
                show Map.get uf.extra.mapping p2 ≠ none
                rw [show Map.get uf.extra.mapping p2 = ByRank.rank uf.extra p2 from rfl, hr2]
                simp) h.2
            exact keysEq_parent_set
              { uf with extra := ByRank.set_rank uf.extra p2 ((k2 + 1) % usizeSize) } p1 p2
              (by show Map.get uf.parent p1 ≠ none; rw [hroot1]; simp) hk1
        · rw [ubrh_gt hpp hr1 hr2 hc]
          exact ⟨invP_link hroot1 hroot2 (fun hh : p2 = p1 => hpp hh.symm) h.1,
            keysEq_parent_set uf p2 p1 (by rw [hroot2]; simp) h.2⟩

theorem inv_ub_uf [DecidableEq α] {ε : Type} {uf : UnionFind α} (e1 e2 : α)
    {u : α → α → Except ε α} (hgood : GoodStrategy u) (h : Inv uf) :
    Inv (UnionFind.union_by uf e1 e2 u).2 := by
  cases hfs1 : UnionFind.find_shorten uf e1 with
  | mk o1 uf1 =>
    have hinv1 : Inv uf1 := by
      have hx := inv_fs_uf e1 h
      rw [hfs1] at hx
      exact hx
    cases o1 with
    | none =>
      rw [union_by_none1 hfs1 e2 u]
      exact hinv1
    | some p1 =>
      cases hfs2 : UnionFind.find_shorten uf1 e2 with
      | mk o2 uf2 =>
        have hinv2 : Inv uf2 := by
          have hx := inv_fs_uf e2 hinv1
          rw [hfs2] at hx
          exact hx
        cases o2 with
        | none =>
          rw [union_by_none2 hfs1 hfs2 u]
          exact hinv2
        | some p2 =>
          rw [union_by_some hfs1 hfs2 u]
          have hfst1 : (UnionFind.find_shorten uf e1).1 = some p1 := by rw [hfs1]
          have hfst2 : (UnionFind.find_shorten uf1 e2).1 = some p2 := by rw [hfs2]
          have hr1 : Map.get uf2.parent p1 = some p1 := by
            have ha : Map.get uf1.parent p1 = some p1 := by
              have hb := fs_root_post hfst1
              rw [hfs1] at hb
              exact hb
            have hd : Map.get (UnionFind.find_shorten uf1 e2).2.parent p1 = some p1 :=
              findShortenAux_root_stable ha
            rw [hfs2] at hd
            exact hd
          have hr2 : Map.get uf2.parent p2 = some p2 := by
            have hb := fs_root_post hfst2
            rw [hfs2] at hb
            exact hb
          have hhelper := inv_union_helper hr1 hr2 hgood hinv2
          cases hh : UnionFind.union_helper uf2 p1 p2 u with
          | mk rr uf3 =>
            rw [hh] at hhelper
            cases rr with
            | ok st => exact hhelper
            | error er => exact hhelper

theorem inv_ubr_uf [DecidableEq α] {uf : UnionFind α} (e1 e2 : α) (h : Inv uf) :
    Inv (UnionFind.union_by_rank uf e1 e2).2 := by
  cases hfs1 : UnionFind.find_shorten uf e1 with
  | mk o1 uf1 =>
    have hinv1 : Inv uf1 := by
      have hx := inv_fs_uf e1 h
      rw [hfs1] at hx
      exact hx
    cases o1 with
    | none =>
      rw [ubr_none1 hfs1 e2]
      exact hinv1
    | some p1 =>
      cases hfs2 : UnionFind.find_shorten uf1 e2 with
      | mk o2 uf2 =>
        have hinv2 : Inv uf2 := by
          have hx := inv_fs_uf e2 hinv1
          rw [hfs2] at hx
          exact hx
        cases o2 with
        | none =>
          rw [ubr_none2 hfs1 hfs2]
          exact hinv2
        | some p2 =>
          rw [ubr_some hfs1 hfs2]
          have hfst1 : (UnionFind.find_shorten uf e1).1 = some p1 := by rw [hfs1]
          have hfst2 : (UnionFind.find_shorten uf1 e2).1 = some p2 := by rw [hfs2]
          have hr1 : Map.get uf2.parent p1 = some p1 := by
            have ha : Map.get uf1.parent p1 = some p1 := by
              have hb := fs_root_post hfst1
              rw [hfs1] at hb
              exact hb
            have hd : Map.get (UnionFind.find_shorten uf1 e2).2.parent p1 = some p1 :=
              findShortenAux_root_stable ha
            rw [hfs2] at hd
            exact hd
          have hr2 : Map.get uf2.parent p2 = some p2 := by
            have hb := fs_root_post hfst2
            rw [hfs2] at hb
            exact hb
          exact inv_ubrh hr1 hr2 hinv2

theorem inv_add_state [DecidableEq α] (uf : UnionFind α) (e : α) (v : Nat)
    (hp : Map.get uf.parent e = none) (h : Inv uf) :
    Inv { parent := Map.set uf.parent e e,
          extra := (⟨Map.set uf.extra.mapping e v⟩ : ByRank α) } := by
  constructor
  · exact invP_add hp h.1
  · rw [KeysEq_iff]
    intro j
    have h2 := (KeysEq_iff uf).mp h.2 j
    show Map.get (Map.set uf.parent e e) j ≠ none ↔
      Map.get (Map.set uf.extra.mapping e v) j ≠ none
    rw [Map.get_set, Map.get_set]
    by_cases hej : e = j
    · rw [if_pos hej, if_pos hej]
      simp
    · rw [if_neg hej, if_neg hej]
      exact h2

theorem inv_add_uf [DecidableEq α] {uf : UnionFind α} (e : α) (h : Inv uf) :
    Inv (UnionFind.add uf e).2 := by
  cases hp : Map.get uf.parent e with
  | some v =>
    rw [add_err_parent (by rw [hp]; simp)]
    exact h
  | none =>
    have hx : Map.get uf.extra.mapping e = none := keysEq_absent h.2 hp
    rw [add_ok hp hx]
    exact inv_add_state uf e (0 % usizeSize) hp h

theorem inv_awe_uf [DecidableEq α] {uf : UnionFind α} (e : α) (v : Nat) (h : Inv uf) :
    Inv (UnionFind.add_with_extra uf e v).2 := by
  cases hp : Map.get uf.parent e with
  | some w =>
    rw [awe_err_parent v (by rw [hp]; simp)]
    exact h
  | none =>
    have hx : Map.get uf.extra.mapping e = none := keysEq_absent h.2 hp
    rw [awe_ok v hp hx]
    exact inv_add_state uf e (v % usizeSize) hp h

theorem inv_foa_uf [DecidableEq α] {uf uf' : UnionFind α} {e r : α}
    (hfoa : UnionFind.find_or_add uf e = some (r, uf')) (h : Inv uf) : Inv uf' := by
  cases hf : UnionFind.find uf e with
  | some i =>
    rw [foa_found hf] at hfoa
    have h5 := Option.some.inj hfoa
    injection h5 with h5a h5b
    rw [← h5b]
    exact h
  | none =>
    have hp : Map.get uf.parent e = none := find_none_absent h.1 hf
    have hx : Map.get uf.extra.mapping e = none := keysEq_absent h.2 hp
    rw [foa_notfound hf, add_ok hp hx] at hfoa
    have h5 := Option.some.inj hfoa
    injection h5 with h5a h5b
    rw [← h5b]
    exact inv_add_state uf e (0 % usizeSize) hp h

theorem reachable_inv [DecidableEq α] {uf : UnionFind α} (h : Reachable uf) : Inv uf := by
  induction h with
  | base elems uf0 hnew => exact new_inv hnew
  | fs uf0 e _ ih => exact inv_fs_uf e ih
  | ub uf0 e1 e2 u _ hgood ih => exact inv_ub_uf e1 e2 hgood ih
  | ubr uf0 e1 e2 _ ih => exact inv_ubr_uf e1 e2 ih
  | add uf0 e _ ih => exact inv_add_uf e ih
  | awe uf0 e v _ ih => exact inv_awe_uf e v ih
  | foa uf0 e r uf1 _ hfoa ih => exact inv_foa_uf hfoa ih

theorem keysEq_fs [DecidableEq α] {uf : UnionFind α} (e : α) (h : KeysEq uf) :
    KeysEq (UnionFind.find_shorten uf e).2 := by
  rw [KeysEq_iff]
  intro k
  have h2 := (KeysEq_iff uf).mp h k
  constructor
  · intro hk
    exact h2.mp (fun hn => hk (findShortenAux_get_none hn))
  · intro hk hn
    exact h2.mpr hk ((findShortenAux_present k).mp hn)

theorem keysEq_union_helper [DecidableEq α] {ε : Type} {uf : UnionFind α} {p1 p2 : α}
    (u : α → α → Except ε α)
    (hroot1 : Map.get uf.parent p1 = some p1) (hroot2 : Map.get uf.parent p2 = some p2)
    (h : KeysEq uf) : KeysEq (UnionFind.union_helper uf p1 p2 u).2 := by
  by_cases hpp : p1 = p2
  · rw [hpp, union_helper_equiv]
    exact h
  · rw [union_helper_ne uf hpp u]
    cases hu : u p1 p2 with
    | error err => exact h
    | ok res =>
      have hk1 : KeysEq { uf with parent := Map.set uf.parent p1 res } :=
        keysEq_parent_set uf p1 res (by rw [hroot1]; simp) h
      exact keysEq_parent_set { uf with parent := Map.set uf.parent p1 res } p2 res
        (by show Map.get (Map.set uf.parent p1 res) p2 ≠ none
            rw [Map.get_set, if_neg hpp, hroot2]; simp) hk1

theorem keysEq_ubrh [DecidableEq α] {uf : UnionFind α} {p1 p2 : α}
    (hroot1 : Map.get uf.parent p1 = some p1) (hroot2 : Map.get uf.parent p2 = some p2)
    (h : KeysEq uf) : KeysEq (UnionFind.union_by_rank_helper uf p1 p2).2 := by
  by_cases hpp : p1 = p2
  · rw [hpp, ubrh_equiv]
    exact h
  · cases hr1 : ByRank.rank uf.extra p1 with
    | none => rw [ubrh_norank1 hpp hr1]; exact h
    | some k1 =>
      cases hr2 : ByRank.rank uf.extra p2 with
      | none => rw [ubrh_norank2 hpp hr1 hr2]; exact h
      | some k2 =>
        rcases Nat.lt_trichotomy k1 k2 with hc | hc | hc
        · rw [ubrh_lt hpp hr1 hr2 hc]
          exact keysEq_parent_set uf p1 p2 (by rw [hroot1]; simp) h
        · rw [ubrh_eq hpp hr1 hr2 hc]
          have hk1 : KeysEq
              { uf with extra := ByRank.set_rank uf.extra p2 ((k2 + 1) % usizeSize) } :=
            keysEq_extra_set uf p2 ((k2 + 1) % usizeSize) (by
              show Map.get uf.extra.mapping p2 ≠ none
              rw [show Map.get uf.extra.mapping p2 = ByRank.rank uf.extra p2 from rfl, hr2]
              simp) h
          exact keysEq_parent_set
            { uf with extra := ByRank.set_rank uf.extra p2 ((k2 + 1) % usizeSize) } p1 p2
            (by show Map.get uf.parent p1 ≠ none; rw [hroot1]; simp) hk1
        · rw [ubrh_gt hpp hr1 hr2 hc]
          exact keysEq_parent_set uf p2 p1 (by rw [hroot2]; simp) h

theorem keysEq_add_state [DecidableEq α] (uf : UnionFind α) (e : α) (v : Nat)
    (h : KeysEq uf) :
    KeysEq { parent := Map.set uf.parent e e,
             extra := (⟨Map.set uf.extra.mapping e v⟩ : ByRank α) } := by
  rw [KeysEq_iff]
  intro j
  have h2 := (KeysEq_iff uf).mp h j
  show Map.get (Map.set uf.parent e e) j ≠ none ↔
    Map.get (Map.set uf.extra.mapping e v) j ≠ none
  rw [Map.get_set, Map.get_set]
  by_cases hej : e = j
  · rw [if_pos hej, if_pos hej]
    simp
  · rw [if_neg hej, if_neg hej]
    exact h2

theorem keysEq_half_add [DecidableEq α] (uf : UnionFind α) (e : α)
    (hx : Map.get uf.extra.mapping e ≠ none) (h : KeysEq uf) :
    KeysEq { uf with parent := Map.set uf.parent e e } := by
  rw [KeysEq_iff]
  intro j
  have h2 := (KeysEq_iff uf).mp h j
  show Map.get (Map.set uf.parent e e) j ≠ none ↔ Map.get uf.extra.mapping j ≠ none
  rw [Map.get_set]
  by_cases hej : e = j
  · rw [if_pos hej]
    rw [← hej]
    simp [hx]
  · rw [if_neg hej]
    exact h2

theorem keysEq_add_uf [DecidableEq α] {uf : UnionFind α} (e : α) (h : KeysEq uf) :
    KeysEq (UnionFind.add uf e).2 := by
  cases hp : Map.get uf.parent e with
  | some w =>
    rw [add_err_parent (by rw [hp]; simp)]
    exact h
  | none =>
    cases hx : Map.get uf.extra.mapping e with
    | none =>
      rw [add_ok hp hx]
      exact keysEq_add_state uf e (0 % usizeSize) h
    | some w =>
      rw [add_err_extra hp (by rw [hx]; simp)]
      exact keysEq_half_add uf e (by rw [hx]; simp) h

theorem keysEq_awe_uf [DecidableEq α] {uf : UnionFind α} (e : α) (v : Nat)
    (h : KeysEq uf) : KeysEq (UnionFind.add_with_extra uf e v).2 := by
  cases hp : Map.get uf.parent e with
  | some w =>
    rw [awe_err_parent v (by rw [hp]; simp)]
    exact h
  | none =>
    cases hx : Map.get uf.extra.mapping e with
    | none =>
      rw [awe_ok v hp hx]
      exact keysEq_add_state uf e (v % usizeSize) h
    | some w =>
      rw [awe_err_extra v hp (by rw [hx]; simp)]
      exact keysEq_half_add uf e (by rw [hx]; simp) h

theorem keysEq_ub_uf [DecidableEq α] {ε : Type} {uf : UnionFind α} (e1 e2 : α)
    (u : α → α → Except ε α) (h : KeysEq uf) :
    KeysEq (UnionFind.union_by uf e1 e2 u).2 := by
  cases hfs1 : UnionFind.find_shorten uf e1 with
  | mk o1 uf1 =>
    have hk1 : KeysEq uf1 := by
      have hx := keysEq_fs e1 h
      rw [hfs1] at hx
      exact hx
    cases o1 with
    | none =>
      rw [union_by_none1 hfs1 e2 u]
      exact hk1
    | some p1 =>
      cases hfs2 : UnionFind.find_shorten uf1 e2 with
      | mk o2 uf2 =>
        have hk2 : KeysEq uf2 := by
          have hx := keysEq_fs e2 hk1
          rw [hfs2] at hx
          exact hx
        cases o2 with
        | none =>
          rw [union_by_none2 hfs1 hfs2 u]
          exact hk2
        | some p2 =>
          rw [union_by_some hfs1 hfs2 u]
          have hfst1 : (UnionFind.find_shorten uf e1).1 = some p1 := by rw [hfs1]
          have hfst2 : (UnionFind.find_shorten uf1 e2).1 = some p2 := by rw [hfs2]
          have hr1 : Map.get uf2.parent p1 = some p1 := by
            have ha : Map.get uf1.parent p1 = some p1 := by
              have hb := fs_root_post hfst1
              rw [hfs1] at hb
              exact hb
            have hd : Map.get (UnionFind.find_shorten uf1 e2).2.parent p1 = some p1 :=
              findShortenAux_root_stable ha
            rw [hfs2] at hd
            exact hd
          have hr2 : Map.get uf2.parent p2 = some p2 := by
            have hb := fs_root_post hfst2
            rw [hfs2] at hb
            exact hb
          have hhelper := keysEq_union_helper u hr1 hr2 hk2
          cases hh : UnionFind.union_helper uf2 p1 p2 u with
          | mk rr uf3 =>
            rw [hh] at hhelper
            cases rr with
            | ok st => exact hhelper
            | error er => exact hhelper

theorem keysEq_ubr_uf [DecidableEq α] {uf : UnionFind α} (e1 e2 : α) (h : KeysEq uf) :
    KeysEq (UnionFind.union_by_rank uf e1 e2).2 := by
  cases hfs1 : UnionFind.find_shorten uf e1 with
  | mk o1 uf1 =>
    have hk1 : KeysEq uf1 := by
      have hx := keysEq_fs e1 h
      rw [hfs1] at hx
      exact hx
    cases o1 with
    | none =>
      rw [ubr_none1 hfs1 e2]
      exact hk1
    | some p1 =>
      cases hfs2 : UnionFind.find_shorten uf1 e2 with
      | mk o2 uf2 =>
        have hk2 : KeysEq uf2 := by
          have hx := keysEq_fs e2 hk1
          rw [hfs2] at hx
          exact hx
        cases o2 with
        | none =>
          rw [ubr_none2 hfs1 hfs2]
          exact hk2
        | some p2 =>
          rw [ubr_some hfs1 hfs2]
          have hfst1 : (UnionFind.find_shorten uf e1).1 = some p1 := by rw [hfs1]
          have hfst2 : (UnionFind.find_shorten uf1 e2).1 = some p2 := by rw [hfs2]
          have hr1 : Map.get uf2.parent p1 = some p1 := by
            have ha : Map.get uf1.parent p1 = some p1 := by
              have hb := fs_root_post hfst1
              rw [hfs1] at hb
              exact hb
            have hd : Map.get (UnionFind.find_shorten uf1 e2).2.parent p1 = some p1 :=
              findShortenAux_root_stable ha
            rw [hfs2] at hd
            exact hd
          have hr2 : Map.get uf2.parent p2 = some p2 := by
            have hb := fs_root_post hfst2
            rw [hfs2] at hb
            exact hb
          exact keysEq_ubrh hr1 hr2 hk2

theorem keysEq_foa_uf [DecidableEq α] {uf uf' : UnionFind α} {e r : α}
    (hfoa : UnionFind.find_or_add uf e = some (r, uf')) (h : KeysEq uf) : KeysEq uf' := by
  cases hf : UnionFind.find uf e with
  | some i =>
    rw [foa_found hf] at hfoa
    injection Option.some.inj hfoa with h5a h5b
    rw [← h5b]
    exact h
  | none =>
    rw [foa_notfound hf] at hfoa
    cases hp : Map.get uf.parent e with
    | some w =>
      rw [add_err_parent (by rw [hp]; simp)] at hfoa
      exact Option.noConfusion hfoa
    | none =>
      cases hx : Map.get uf.extra.mapping e with
      | some w =>
        rw [add_err_extra hp (by rw [hx]; simp)] at hfoa
        exact Option.noConfusion hfoa
      | none =>
        rw [add_ok hp hx] at hfoa
        injection Option.some.inj hfoa with h5a h5b
        rw [← h5b]
        exact keysEq_add_state uf e (0 % usizeSize) h

theorem keysEq_step [DecidableEq α] {uf uf' : UnionFind α}
    (h : OneStep uf uf') (hk : KeysEq uf) : KeysEq uf' := by
  cases h with
  | fs uf e => exact keysEq_fs e hk
  | ub uf e1 e2 u => exact keysEq_ub_uf e1 e2 u hk
  | ubr uf e1 e2 => exact keysEq_ubr_uf e1 e2 hk
  | add uf e => exact keysEq_add_uf e hk
  | awe uf e v => exact keysEq_awe_uf e v hk
  | foa uf e r uf2 hfoa => exact keysEq_foa_uf hfoa hk

theorem extra_ub [DecidableEq α] {ε : Type} (uf : UnionFind α) (e1 e2 : α)
    (u : α → α → Except ε α) :
    (UnionFind.union_by uf e1 e2 u).2.extra = uf.extra := by
  cases hfs1 : UnionFind.find_shorten uf e1 with
  | mk o1 uf1 =>
    have he1 : uf1.extra = uf.extra := by
      have hx := fs_snd_extra uf e1
      rw [hfs1] at hx
      exact hx
    cases o1 with
    | none => rw [union_by_none1 hfs1 e2 u]; exact he1
    | some p1 =>
      cases hfs2 : UnionFind.find_shorten uf1 e2 with
      | mk o2 uf2 =>
        have he2 : uf2.extra = uf.extra := by
          have hx := fs_snd_extra uf1 e2
          rw [hfs2] at hx
          rw [hx]
          exact he1
        cases o2 with
        | none => rw [union_by_none2 hfs1 hfs2 u]; exact he2
        | some p2 =>
          rw [union_by_some hfs1 hfs2 u]
          by_cases hpp : p1 = p2
          · rw [hpp, union_helper_equiv]
            exact he2
          · rw [union_helper_ne uf2 hpp u]
            cases hu : u p1 p2 with
            | error err => exact he2
            | ok res => exact he2

theorem rank_change_step [DecidableEq α] {uf uf' : UnionFind α}
    (h : OneStep uf uf') :
    ∀ k v, Map.get uf.extra.mapping k = some v →
      Map.get uf'.extra.mapping k = some v ∨
      (Map.get uf'.extra.mapping k = some ((v + 1) % usizeSize) ∧
       Map.get uf.parent k = some k ∧
       ∃ r1, r1 ≠ k ∧ Map.get uf.parent r1 = some r1 ∧
         Map.get uf.extra.mapping r1 = some v ∧
         Map.get uf'.parent r1 = some k) := by
  cases h with
  | fs uf e =>
    intro k v hv
    exact Or.inl hv
  | ub uf e1 e2 u =>
    intro k v hv
    rw [extra_ub uf e1 e2 u]
    exact Or.inl hv
  | ubr uf e1 e2 =>
    intro k v hv
    cases hfs1 : UnionFind.find_shorten uf e1 with
    | mk o1 uf1 =>
      have he1 : uf1.extra = uf.extra := by
        have hx := fs_snd_extra uf e1
        rw [hfs1] at hx
        exact hx
      cases o1 with
      | none =>
        rw [ubr_none1 hfs1 e2]
        exact Or.inl (by rw [he1]; exact hv)
      | some p1 =>
        cases hfs2 : UnionFind.find_shorten uf1 e2 with
        | mk o2 uf2 =>
          have he2 : uf2.extra = uf.extra := by
            have hx := fs_snd_extra uf1 e2
            rw [hfs2] at hx
            rw [hx]
            exact he1
          cases o2 with
          | none =>
            rw [ubr_none2 hfs1 hfs2]
            exact Or.inl (by rw [he2]; exact hv)
          | some p2 =>
            rw [ubr_some hfs1 hfs2]
            have hfst1 : (UnionFind.find_shorten uf e1).1 = some p1 := by rw [hfs1]
            have hfst2 : (UnionFind.find_shorten uf1 e2).1 = some p2 := by rw [hfs2]
            by_cases hpp : p1 = p2
            · rw [hpp, ubrh_equiv]
              exact Or.inl (by rw [he2]; exact hv)
            · cases hr1 : ByRank.rank uf2.extra p1 with
              | none =>
                rw [ubrh_norank1 hpp hr1]
                exact Or.inl (by rw [he2]; exact hv)
              | some k1 =>
                cases hr2 : ByRank.rank uf2.extra p2 with
                | none =>
                  rw [ubrh_norank2 hpp hr1 hr2]
                  exact Or.inl (by rw [he2]; exact hv)
                | some k2 =>
                  rcases Nat.lt_trichotomy k1 k2 with hc | hc | hc
                  · rw [ubrh_lt hpp hr1 hr2 hc]
                    left
                    show Map.get uf2.extra.mapping k = some v
                    rw [he2]
                    exact hv
                  · rw [ubrh_eq hpp hr1 hr2 hc]
                    by_cases hk2 : p2 = k
                    · subst hk2
                      right
                      have hvk : v = k2 := by
                        have hq : Map.get uf.extra.mapping p2 = some k2 := by
                          rw [← he2]
                          exact hr2
                        rw [hv] at hq
                        exact Option.some.inj hq
                      have hfst1' :
                          (findShortenAux (uf.parent.length + 1) uf.parent e1).1 = some p1 :=
                        hfst1
                      have hp2eq :
                          (findShortenAux (uf.parent.length + 1) uf.parent e1).2 = uf1.parent := by
                        have hx : (UnionFind.find_shorten uf e1).2.parent = uf1.parent := by
                          rw [hfs1]
                        exact hx
                      have hroot_uf1 : Map.get uf1.parent p2 = some p2 := fs_root_pre hfst2
                      have hrootA : Map.get uf.parent p2 = some p2 := by
                        have hA := findShortenAux_get hfst1' p2
                        rw [hp2eq] at hA
                        rcases hA with hA | hA
                        · rw [← hA]
                          exact hroot_uf1
                        · rw [hroot_uf1] at hA
                          exact absurd (Option.some.inj hA).symm hpp
                      refine ⟨?_, hrootA, p1, hpp, fs_root_pre hfst1, ?_, ?_⟩
                      · show Map.get (Map.set uf2.extra.mapping p2 ((k2 + 1) % usizeSize)) p2 =
                          some ((v + 1) % usizeSize)
                        rw [Map.get_set, if_pos rfl, hvk]
                      · rw [← he2]
                        rw [show Map.get uf2.extra.mapping p1 = ByRank.rank uf2.extra p1 from rfl,
                          hr1, hvk, hc]
                      · show Map.get (Map.set uf2.parent p1 p2) p1 = some p2
                        rw [Map.get_set, if_pos rfl]
                    · left
                      show Map.get (Map.set uf2.extra.mapping p2 ((k2 + 1) % usizeSize)) k = some v
                      rw [Map.get_set, if_neg hk2, he2]
                      exact hv
                  · rw [ubrh_gt hpp hr1 hr2 hc]
                    left
                    show Map.get uf2.extra.mapping k = some v
                    rw [he2]
                    exact hv
  | add uf e =>
    intro k v hv
    cases hp : Map.get uf.parent e with
    | some w =>
      rw [add_err_parent (by rw [hp]; simp)]
      exact Or.inl hv
    | none =>
      cases hx : Map.get uf.extra.mapping e with
      | some w =>
        rw [add_err_extra hp (by rw [hx]; simp)]
        exact Or.inl hv
      | none =>
        rw [add_ok hp hx]
        left
        show Map.get (Map.set uf.extra.mapping e (0 % usizeSize)) k = some v
        have hek : e ≠ k := by
          intro hek
          rw [hek, hv] at hx
          exact Option.noConfusion hx
        rw [Map.get_set, if_neg hek]
        exact hv
  | awe uf e w0 =>
    intro k v hv
    cases hp : Map.get uf.parent e with
    | some w =>
      rw [awe_err_parent w0 (by rw [hp]; simp)]
      exact Or.inl hv
    | none =>
      cases hx : Map.get uf.extra.mapping e with
      | some w =>
        rw [awe_err_extra w0 hp (by rw [hx]; simp)]
        exact Or.inl hv
      | none =>
        rw [awe_ok w0 hp hx]
        left
        show Map.get (Map.set uf.extra.mapping e (w0 % usizeSize)) k = some v
        have hek : e ≠ k := by
          intro hek
          rw [hek, hv] at hx
          exact Option.noConfusion hx
        rw [Map.get_set, if_neg hek]
        exact hv
  | foa uf e r uf2 hfoa =>
    intro k v hv
    cases hf : UnionFind.find uf e with
    | some i =>
      rw [foa_found hf] at hfoa
      injection Option.some.inj hfoa with h5a h5b
      rw [← h5b]
      exact Or.inl hv
    | none =>
      rw [foa_notfound hf] at hfoa
      cases hp : Map.get uf.parent e with
      | some w =>
        rw [add_err_parent (by rw [hp]; simp)] at hfoa
        exact Option.noConfusion hfoa
      | none =>
        cases hx : Map.get uf.extra.mapping e with
        | some w =>
          rw [add_err_extra hp (by rw [hx]; simp)] at hfoa
          exact Option.noConfusion hfoa
        | none =>
          rw [add_ok hp hx] at hfoa
          injection Option.some.inj hfoa with h5a h5b
          rw [← h5b]
          left
          show Map.get (Map.set uf.extra.mapping e (0 % usizeSize)) k = some v
          have hek : e ≠ k := by
            intro hek
            rw [hek, hv] at hx
            exact Option.noConfusion hx
          rw [Map.get_set, if_neg hek]
          exact hv

theorem usizeSize_pos : 0 < usizeSize := by decide

theorem rank_step_cases [DecidableEq α] {uf uf' : UnionFind α} (h : OneStep uf uf')
    (k : α) (v : Nat) (hv : Map.get uf.extra.mapping k = some v) :
    Map.get uf'.extra.mapping k = some v ∨
      Map.get uf'.extra.mapping k = some ((v + 1) % usizeSize) :=
  (rank_change_step h k v hv).imp id And.left

theorem rank_persist [DecidableEq α] {uf uf' : UnionFind α}
    (h : Relation.ReflTransGen OneStep uf uf') (k : α) (v : Nat)
    (hv : Map.get uf.extra.mapping k = some v) (hlt : v < usizeSize) :
    ∃ v', Map.get uf'.extra.mapping k = some v' ∧ v' < usizeSize := by
  induction h with
  | refl => exact ⟨v, hv, hlt⟩
  | tail hsteps hstep ih =>
    rcases ih with ⟨v1, hv1, hlt1⟩
    rcases rank_step_cases hstep k v1 hv1 with h1 | h1
    · exact ⟨v1, h1, hlt1⟩
    · exact ⟨(v1 + 1) % usizeSize, h1, Nat.mod_lt _ usizeSize_pos⟩

/-- C3: for every key and every state of the union-find, `find` and
`find_shorten` return the same result — the same representative when the key
resolves, `none` when it does not — so the equality holds before and after
any number of path compressions. -/
theorem claim_C3 [DecidableEq α] (uf : UnionFind α) (e : α) :
    (UnionFind.find_shorten uf e).1 = UnionFind.find uf e :=
  fs_fst uf e

/-- C7: evaluating the code at the failing input `[0, 0]`: `UnionFind::new`
on a duplicate-key element list panics (the construction `unwrap`s the
mapping errors, modelled as `none`); it never returns the declared
`NewUnionFindError::Parent`/`Extra` values, contradicting the spec. -/
theorem claim_C7 : UnionFind.new ([0, 0] : List Nat) = none := rfl

/-- C2 counterexample: the state `ufBad`, reached from a fresh union-find
over `{0, 1}` by a single `union_by` whose strategy synthesizes the absent
representative `5`, is reachable through the public operations, yet the
added key `0` is present and `find` returns `none` on it — the parent
mapping is no forest. -/
theorem claim_C2_counterexample :
    ReachableAny ufBad ∧ Map.get ufBad.parent 0 ≠ none ∧
      UnionFind.find ufBad 0 = none := by
  refine ⟨?_, by decide, by decide⟩
  exact ReachableAny.step ufA ufBad (ReachableAny.base [0, 1] ufA rfl)
    (OneStep.ub ufA 0 1 synthStrategy)

/-- C2 (amended): in every state reachable from construction via the public
operations, where every union strategy used returns one of its two
arguments, the parent mapping is a forest: every present key's `find`
reaches a self-mapped representative, hence `find` returns `some` for every
added key. -/
theorem claim_C2 [DecidableEq α] (uf : UnionFind α) (h : Reachable uf) :
    ∀ k, Map.get uf.parent k ≠ none →
      ∃ r, UnionFind.find uf k = some r ∧ Map.get uf.parent r = some r := by
  intro k hk
  have hinv := reachable_inv h
  have h0 := (InvP_iff uf.parent).mp hinv.1 k hk
  cases hf : UnionFind.find uf k with
  | none =>
    have hf' : findAux uf.parent (uf.parent.length + 1) k = none := hf
    rw [hf'] at h0
    exact absurd h0 (by simp)
  | some r =>
    refine ⟨r, rfl, ?_⟩
    exact findAux_root (show findAux uf.parent (uf.parent.length + 1) k = some r from hf)

/-- C2 witness: the amended theorem applied to the freshly constructed
union-find over `{0, 1}` at the present key `0`. -/
theorem claim_C2_witness :
    Map.get ufA.parent 0 ≠ none ∧
      ∃ r, UnionFind.find ufA 0 = some r ∧ Map.get ufA.parent r = some r :=
  ⟨by decide, claim_C2 ufA (Reachable.base [0, 1] ufA rfl) 0 (by decide)⟩

/-- C6: construction produces equal key sets in the parent mapping and the
extra mapping, and every public mutating operation — with any arguments,
any union strategy, and in the error outcomes too — preserves that
equality. -/
theorem claim_C6 [DecidableEq α] :
    (∀ (elems : List α) (uf : UnionFind α), UnionFind.new elems = some uf → KeysEq uf) ∧
    (∀ uf uf' : UnionFind α, OneStep uf uf' → KeysEq uf → KeysEq uf') := by
  constructor
  · intro elems uf h
    exact (new_inv h).2
  · intro uf uf' h hk
    exact keysEq_step h hk

/-- C6 witness: the key-set equality established by construction over
`{0, 1}` and carried through an `add` step. -/
theorem claim_C6_witness : KeysEq ufA ∧ KeysEq (UnionFind.add ufA 5).2 :=
  ⟨(@claim_C6 Nat _).1 [0, 1] ufA rfl,
   (@claim_C6 Nat _).2 ufA (UnionFind.add ufA 5).2 (OneStep.add ufA 5)
     ((@claim_C6 Nat _).1 [0, 1] ufA rfl)⟩

/-- C8 counterexample: ranks DO decrease. From the empty union-find, adding
`0` and `1` with rank `usize::MAX` via `add_with_extra` and then calling
`union_by_rank 0 1` is a reachable sequence of public operations in which
the tie branch computes `rank2 + 1` in `usize`, wrapping the surviving
representative's rank from `usizeSize - 1` down to `0` (release semantics;
a debug build panics at the same input). -/
theorem claim_C8_counterexample :
    Reachable ufC ∧
    Relation.ReflTransGen OneStep ufC (UnionFind.union_by_rank ufC 0 1).2 ∧
    Map.get ufC.extra.mapping 1 = some (usizeSize - 1) ∧
    Map.get (UnionFind.union_by_rank ufC 0 1).2.extra.mapping 1 = some 0 ∧
    0 < usizeSize - 1 := by
  refine ⟨?_, Relation.ReflTransGen.single (OneStep.ubr ufC 0 1),
    by decide, by decide, by decide⟩
  exact Reachable.awe _ 1 (usizeSize - 1) (Reachable.awe _ 0 (usizeSize - 1)
    (Reachable.base [] ufEmpty rfl))

/-- C8 (amended): across any single public operation a key's rank (a
`usize`, hence below `usizeSize`) either stays or grows — except that a
rank-tie merge at `usizeSize - 1` wraps the survivor's rank to `0`; and
across any sequence of public operations, whenever a key's rank has
decreased, some step of the sequence wrapped that key's rank from
`usizeSize - 1` to `0`. -/
theorem claim_C8 [DecidableEq α] :
    (∀ uf uf' : UnionFind α, OneStep uf uf' →
      ∀ k v, Map.get uf.extra.mapping k = some v → v < usizeSize →
        ∃ v', Map.get uf'.extra.mapping k = some v' ∧
          (v ≤ v' ∨ (v = usizeSize - 1 ∧ v' = 0))) ∧
    (∀ uf uf' : UnionFind α, Relation.ReflTransGen OneStep uf uf' →
      ∀ k v v', Map.get uf.extra.mapping k = some v → v < usizeSize →
        Map.get uf'.extra.mapping k = some v' → v' < v →
        ∃ ufm ufw, Relation.ReflTransGen OneStep uf ufm ∧ OneStep ufm ufw ∧
          Relation.ReflTransGen OneStep ufw uf' ∧
          Map.get ufm.extra.mapping k = some (usizeSize - 1) ∧
          Map.get ufw.extra.mapping k = some 0) := by
  constructor
  · intro uf uf' hstep k v hv hlt
    rcases rank_step_cases hstep k v hv with h1 | h1
    · exact ⟨v, h1, Or.inl (Nat.le_refl v)⟩
    · by_cases hmax : v = usizeSize - 1
      · refine ⟨(v + 1) % usizeSize, h1, Or.inr ⟨hmax, ?_⟩⟩
        rw [hmax, Nat.sub_add_cancel usizeSize_pos, Nat.mod_self]
      · have hlt2 : v + 1 < usizeSize := by omega
        refine ⟨(v + 1) % usizeSize, h1, Or.inl ?_⟩
        rw [Nat.mod_eq_of_lt hlt2]
        exact Nat.le_succ v
  · intro uf uf' h
    induction h with
    | refl =>
      intro k v v' hv hlt hv' hdec
      rw [hv] at hv'
      have hvv := Option.some.inj hv'
      omega
    | tail hsteps hstep ih =>
      intro k v v' hv hlt hv' hdec
      rcases rank_persist hsteps k v hv hlt with ⟨vm, hvm, hltm⟩
      rcases rank_step_cases hstep k vm hvm with h1 | h1
      · have hvm' : vm = v' := by
          rw [h1] at hv'
          exact Option.some.inj hv'
        rcases ih k v vm hv hlt hvm (by omega) with ⟨u1, u2, ha, hb, hc, hd, he⟩
        exact ⟨u1, u2, ha, hb, Relation.ReflTransGen.tail hc hstep, hd, he⟩
      · have hveq : v' = (vm + 1) % usizeSize := by
          rw [h1] at hv'
          exact (Option.some.inj hv').symm
        by_cases hmax : vm = usizeSize - 1
        · have hz : v' = 0 := by
            rw [hveq, hmax, Nat.sub_add_cancel usizeSize_pos, Nat.mod_self]
          refine ⟨_, _, hsteps, hstep, Relation.ReflTransGen.refl, ?_, ?_⟩
          · rw [← hmax]
            exact hvm
          · rw [← hz]
            exact hv'
        · have hlt2 : vm + 1 < usizeSize := by omega
          have hsucc : v' = vm + 1 := by
            rw [hveq, Nat.mod_eq_of_lt hlt2]
          rcases ih k v vm hv hlt hvm (by omega) with ⟨u1, u2, ha, hb, hc, hd, he⟩
          exact ⟨u1, u2, ha, hb, Relation.ReflTransGen.tail hc hstep, hd, he⟩

/-- C8 witness: the per-step clause applied across one `union_by_rank` step
from the union-find over `{0, 1}` at key `1` with rank `0`, and the
wrap-localization clause applied to the maximal-rank tie on `ufC`, where the
rank of key `1` drops from `usizeSize - 1` to `0`. -/
theorem claim_C8_witness :
    (∃ v', Map.get (UnionFind.union_by_rank ufA 0 1).2.extra.mapping 1 = some v' ∧
      (0 ≤ v' ∨ (0 = usizeSize - 1 ∧ v' = 0))) ∧
    (∃ ufm ufw, Relation.ReflTransGen OneStep ufC ufm ∧ OneStep ufm ufw ∧
      Relation.ReflTransGen OneStep ufw (UnionFind.union_by_rank ufC 0 1).2 ∧
      Map.get ufm.extra.mapping 1 = some (usizeSize - 1) ∧
      Map.get ufw.extra.mapping 1 = some 0) := by
  constructor
  · exact (@claim_C8 Nat _).1 ufA (UnionFind.union_by_rank ufA 0 1).2
      (OneStep.ubr ufA 0 1) 1 0 (by decide) (by decide)
  · exact (@claim_C8 Nat _).2 ufC (UnionFind.union_by_rank ufC 0 1).2
      (Relation.ReflTransGen.single (OneStep.ubr ufC 0 1)) 1 (usizeSize - 1) 0
      (by decide) (by decide) (by decide) (by decide)

/-- C1 counterexample: in the reachable state `ufC`, whose two keys both
carry rank `usize::MAX`, the tie-case `union_by_rank 0 1` returns
`PerformedUnion` but the surviving representative's rank is not incremented
by exactly one: the source's `usize` addition wraps it from `usizeSize - 1`
to `0` (release semantics; debug builds panic). -/
theorem claim_C1_counterexample :
    Reachable ufC ∧
    (UnionFind.union_by_rank ufC 0 1).1 = Except.ok UnionStatus.PerformedUnion ∧
    Map.get ufC.extra.mapping 1 = some (usizeSize - 1) ∧
    Map.get (UnionFind.union_by_rank ufC 0 1).2.extra.mapping 1 = some 0 ∧
    (0 : Nat) ≠ (usizeSize - 1) + 1 := by
  refine ⟨?_, rfl, by decide, by decide, by decide⟩
  exact Reachable.awe _ 1 (usizeSize - 1) (Reachable.awe _ 0 (usizeSize - 1)
    (Reachable.base [] ufEmpty rfl))

/-- C1 (amended): `union_by_rank` on two present elements with distinct
representatives returns `PerformedUnion`; the lower-rank representative is
repointed to the higher-rank one with no rank changed, and on a tie the
first representative is repointed to the second, whose rank alone is
incremented by one modulo `usizeSize` — the source's `usize` addition
`rank2 + 1`, which wraps to `0` at `usize::MAX` (release semantics; debug
builds panic there).  Moreover, over any single public operation, a rank
can only change by exactly this wrapped tie rule: it becomes
`(v + 1) % usizeSize` on a representative into which an equal-rank
representative was just merged. -/
theorem claim_C1 [DecidableEq α] :
    (∀ (uf : UnionFind α) (e1 e2 r1 r2 : α) (k1 k2 : Nat),
      UnionFind.find uf e1 = some r1 → UnionFind.find uf e2 = some r2 → r1 ≠ r2 →
      Map.get uf.extra.mapping r1 = some k1 → Map.get uf.extra.mapping r2 = some k2 →
      (UnionFind.union_by_rank uf e1 e2).1 = Except.ok UnionStatus.PerformedUnion ∧
      (k1 < k2 →
        Map.get (UnionFind.union_by_rank uf e1 e2).2.parent r1 = some r2 ∧
        (UnionFind.union_by_rank uf e1 e2).2.extra = uf.extra) ∧
      (k2 < k1 →
        Map.get (UnionFind.union_by_rank uf e1 e2).2.parent r2 = some r1 ∧
        (UnionFind.union_by_rank uf e1 e2).2.extra = uf.extra) ∧
      (k1 = k2 →
        Map.get (UnionFind.union_by_rank uf e1 e2).2.parent r1 = some r2 ∧
        Map.get (UnionFind.union_by_rank uf e1 e2).2.extra.mapping r2 =
          some ((k2 + 1) % usizeSize) ∧
        ∀ j, j ≠ r2 →
          Map.get (UnionFind.union_by_rank uf e1 e2).2.extra.mapping j =
            Map.get uf.extra.mapping j)) ∧
    (∀ uf uf' : UnionFind α, OneStep uf uf' →
      ∀ k v v', Map.get uf.extra.mapping k = some v →
        Map.get uf'.extra.mapping k = some v' → v ≠ v' →
        v' = (v + 1) % usizeSize ∧ Map.get uf.parent k = some k ∧
        ∃ r1, r1 ≠ k ∧ Map.get uf.parent r1 = some r1 ∧
          Map.get uf.extra.mapping r1 = some v ∧
          Map.get uf'.parent r1 = some k) := by
  constructor
  · intro uf e1 e2 r1 r2 k1 k2 h1 h2 hne hk1 hk2
    have hfst1 : (UnionFind.find_shorten uf e1).1 = some r1 := by
      rw [fs_fst]; exact h1
    have hp1 : UnionFind.find_shorten uf e1 =
        (some r1, (UnionFind.find_shorten uf e1).2) := fs_pair hfst1
    have h2c : findAux uf.parent (uf.parent.length + 1) e2 = some r2 := h2
    have h2' : UnionFind.find (UnionFind.find_shorten uf e1).2 e2 = some r2 := by
      show findAux (UnionFind.find_shorten uf e1).2.parent
        ((UnionFind.find_shorten uf e1).2.parent.length + 1) e2 = some r2
      exact findAux_mono (findShortenAux_preserve hfst1 h2c)
        (Nat.succ_le_succ (findShortenAux_length _ _ _))
    have hfst2 : (UnionFind.find_shorten (UnionFind.find_shorten uf e1).2 e2).1 =
        some r2 := by
      rw [fs_fst]; exact h2'
    have hp2 := fs_pair hfst2
    rw [ubr_some hp1 hp2]
    have hr1' : ByRank.rank
        (UnionFind.find_shorten (UnionFind.find_shorten uf e1).2 e2).2.extra r1 =
        some k1 := hk1
    have hr2' : ByRank.rank
        (UnionFind.find_shorten (UnionFind.find_shorten uf e1).2 e2).2.extra r2 =
        some k2 := hk2
    rcases Nat.lt_trichotomy k1 k2 with hc | hc | hc
    · rw [ubrh_lt hne hr1' hr2' hc]
      refine ⟨rfl, fun _ => ⟨?_, rfl⟩,
        fun hgt => absurd hgt (Nat.lt_asymm hc),
        fun heq => absurd hc (by rw [heq]; exact Nat.lt_irrefl k2)⟩
      show Map.get (Map.set
        (UnionFind.find_shorten (UnionFind.find_shorten uf e1).2 e2).2.parent r1 r2)
        r1 = some r2
      rw [Map.get_set, if_pos rfl]
    · rw [ubrh_eq hne hr1' hr2' hc]
      refine ⟨rfl,
        fun hlt => absurd hlt (by rw [hc]; exact Nat.lt_irrefl k2),
        fun hgt => absurd hgt (by rw [hc]; exact Nat.lt_irrefl k2),
        fun _ => ⟨?_, ?_, ?_⟩⟩
      · show Map.get (Map.set
          (UnionFind.find_shorten (UnionFind.find_shorten uf e1).2 e2).2.parent r1 r2)
          r1 = some r2
        rw [Map.get_set, if_pos rfl]
      · show Map.get (Map.set
          (UnionFind.find_shorten (UnionFind.find_shorten uf e1).2 e2).2.extra.mapping
          r2 ((k2 + 1) % usizeSize)) r2 = some ((k2 + 1) % usizeSize)
        rw [Map.get_set, if_pos rfl]
      · intro j hj
        show Map.get (Map.set
          (UnionFind.find_shorten (UnionFind.find_shorten uf e1).2 e2).2.extra.mapping
          r2 ((k2 + 1) % usizeSize)) j = Map.get uf.extra.mapping j
        rw [Map.get_set, if_neg (fun hh : r2 = j => hj hh.symm)]
        rfl
    · rw [ubrh_gt hne hr1' hr2' hc]
      refine ⟨rfl,
        fun hlt => absurd hlt (Nat.lt_asymm hc),
        fun _ => ⟨?_, rfl⟩,
        fun heq => absurd hc (by rw [heq]; exact Nat.lt_irrefl k2)⟩
      show Map.get (Map.set
        (UnionFind.find_shorten (UnionFind.find_shorten uf e1).2 e2).2.parent r2 r1)
        r2 = some r1
      rw [Map.get_set, if_pos rfl]
  · intro uf uf' hstep k v v' hv hv' hnevv
    rcases rank_change_step hstep k v hv with h1 | ⟨h1, h2, r1x, hr1a, hr1b, hr1c, hr1d⟩
    · rw [hv'] at h1
      exact absurd (Option.some.inj h1).symm hnevv
    · have hv'' : v' = (v + 1) % usizeSize := by
        rw [h1] at hv'
        exact (Option.some.inj hv').symm
      exact ⟨hv'', h2, r1x, hr1a, hr1b, hr1c, hr1d⟩

/-- C1 witness: both parts applied to concrete states — the tie-case union
of `0` and `1` in the fresh union-find over `{0, 1, 2, 3}`, and the rank
change observed across the single `union_by_rank` step on `ufA`. -/
theorem claim_C1_witness :
    (UnionFind.union_by_rank ufB0 0 1).1 = Except.ok UnionStatus.PerformedUnion ∧
    (1 = (0 + 1) % usizeSize ∧ Map.get ufA.parent 1 = some 1 ∧
      ∃ r1, r1 ≠ 1 ∧ Map.get ufA.parent r1 = some r1 ∧
        Map.get ufA.extra.mapping r1 = some 0 ∧
        Map.get (UnionFind.union_by_rank ufA 0 1).2.parent r1 = some 1) := by
  constructor
  · exact ((@claim_C1 Nat _).1 ufB0 0 1 0 1 0 0 (by decide) (by decide) (by decide)
      (by decide) (by decide)).1
  · exact (@claim_C1 Nat _).2 ufA (UnionFind.union_by_rank ufA 0 1).2
      (OneStep.ubr ufA 0 1) 1 0 1 (by decide) (by decide) (by decide)

/-- C5 counterexample: the claim's "no mutation is performed" conjunct is
false.  In the reachable state `ufB` the keys `0` and `1` already share the
representative `3`; `union_by_rank 0 1` returns `Ok AlreadyEquivalent`, yet
resolving the two elements runs `find_shorten`, whose path compression
rewrites the parent entry of `0` from `1` to `3`. -/
theorem claim_C5_counterexample :
    Reachable ufB ∧
    UnionFind.find ufB 0 = UnionFind.find ufB 1 ∧
    (UnionFind.union_by_rank ufB 0 1).1 = Except.ok UnionStatus.AlreadyEquivalent ∧
    Map.get ufB.parent 0 = some 1 ∧
    Map.get (UnionFind.union_by_rank ufB 0 1).2.parent 0 = some 3 := by
  refine ⟨?_, by decide, rfl, by decide, by decide⟩
  exact Reachable.ubr _ 0 2 (Reachable.ubr _ 2 3 (Reachable.ubr _ 0 1
    (Reachable.base [0, 1, 2, 3] ufB0 rfl)))

/-- C5 (amended): if the two elements given to `union_by` or
`union_by_rank` already share a representative, the call returns
`Ok AlreadyEquivalent` without merging: the extra (rank) mapping is
unchanged, no key's `find` result is altered and the key set is unchanged;
however the `find_shorten` calls that resolve the two elements may rewrite
parent entries by path compression, so the parent mapping is not literally
untouched. -/
theorem claim_C5 [DecidableEq α] {ε : Type} (uf : UnionFind α) (e1 e2 r : α)
    (u : α → α → Except ε α) (hinv : Inv uf)
    (h1 : UnionFind.find uf e1 = some r) (h2 : UnionFind.find uf e2 = some r) :
    ((UnionFind.union_by uf e1 e2 u).1 = Except.ok UnionStatus.AlreadyEquivalent ∧
     (UnionFind.union_by uf e1 e2 u).2.extra = uf.extra ∧
     (∀ j, UnionFind.find (UnionFind.union_by uf e1 e2 u).2 j =
       UnionFind.find uf j) ∧
     (∀ j, Map.get (UnionFind.union_by uf e1 e2 u).2.parent j = none ↔
       Map.get uf.parent j = none)) ∧
    ((UnionFind.union_by_rank uf e1 e2).1 = Except.ok UnionStatus.AlreadyEquivalent ∧
     (UnionFind.union_by_rank uf e1 e2).2.extra = uf.extra ∧
     (∀ j, UnionFind.find (UnionFind.union_by_rank uf e1 e2).2 j =
       UnionFind.find uf j) ∧
     (∀ j, Map.get (UnionFind.union_by_rank uf e1 e2).2.parent j = none ↔
       Map.get uf.parent j = none)) := by
  have hinv1 : Inv (UnionFind.find_shorten uf e1).2 := inv_fs_uf e1 hinv
  have hfst1 : (UnionFind.find_shorten uf e1).1 = some r := by
    rw [fs_fst]; exact h1
  have hp1 : UnionFind.find_shorten uf e1 =
      (some r, (UnionFind.find_shorten uf e1).2) := fs_pair hfst1
  have hfind1 : ∀ j, UnionFind.find (UnionFind.find_shorten uf e1).2 j =
      UnionFind.find uf j :=
    fun j => find_pres_fs_uf e1 hinv.1 j
  have h2' : UnionFind.find (UnionFind.find_shorten uf e1).2 e2 = some r := by
    rw [hfind1 e2]; exact h2
  have hfst2 : (UnionFind.find_shorten (UnionFind.find_shorten uf e1).2 e2).1 =
      some r := by
    rw [fs_fst]; exact h2'
  have hp2 := fs_pair hfst2
  have hfind2 : ∀ j,
      UnionFind.find (UnionFind.find_shorten (UnionFind.find_shorten uf e1).2 e2).2 j =
      UnionFind.find (UnionFind.find_shorten uf e1).2 j :=
    fun j => find_pres_fs_uf e2 hinv1.1 j
  constructor
  · rw [union_by_some hp1 hp2 u, union_helper_equiv _ r u]
    refine ⟨rfl, rfl, fun j => ?_, fun j => ?_⟩
    · show UnionFind.find
        (UnionFind.find_shorten (UnionFind.find_shorten uf e1).2 e2).2 j =
        UnionFind.find uf j
      rw [hfind2 j, hfind1 j]
    · show Map.get
        (UnionFind.find_shorten (UnionFind.find_shorten uf e1).2 e2).2.parent j =
          none ↔ Map.get uf.parent j = none
      exact Iff.trans (findShortenAux_present j) (findShortenAux_present j)
  · rw [ubr_some hp1 hp2, ubrh_equiv _ r]
    refine ⟨rfl, rfl, fun j => ?_, fun j => ?_⟩
    · show UnionFind.find
        (UnionFind.find_shorten (UnionFind.find_shorten uf e1).2 e2).2 j =
        UnionFind.find uf j
      rw [hfind2 j, hfind1 j]
    · show Map.get
        (UnionFind.find_shorten (UnionFind.find_shorten uf e1).2 e2).2.parent j =
          none ↔ Map.get uf.parent j = none
      exact Iff.trans (findShortenAux_present j) (findShortenAux_present j)

/-- C5 witness: in `ufB` the keys `0` and `1` share the representative `3`;
both union operations report `AlreadyEquivalent`, leave the rank mapping
unchanged and leave the `find` result of the unrelated key `2` untouched. -/
theorem claim_C5_witness :
    (UnionFind.union_by ufB 0 1 synthStrategy).1 =
      Except.ok UnionStatus.AlreadyEquivalent ∧
    (UnionFind.union_by ufB 0 1 synthStrategy).2.extra = ufB.extra ∧
    UnionFind.find (UnionFind.union_by ufB 0 1 synthStrategy).2 2 =
      UnionFind.find ufB 2 ∧
    (UnionFind.union_by_rank ufB 0 1).1 = Except.ok UnionStatus.AlreadyEquivalent ∧
    (UnionFind.union_by_rank ufB 0 1).2.extra = ufB.extra ∧
    UnionFind.find (UnionFind.union_by_rank ufB 0 1).2 2 = UnionFind.find ufB 2 := by
  have h := claim_C5 ufB 0 1 3 synthStrategy (by decide) (by decide) (by decide)
  exact ⟨h.1.1, h.1.2.1, h.1.2.2.1 2, h.2.1, h.2.2.1, h.2.2.2.1 2⟩

/-- C4 counterexample: in the reachable state `ufB`, calling
`union_by_rank 0 9` (second element absent) returns `Elem2NotFound`, yet
the structure IS changed: resolving `0` first compresses its path, and the
parent entry of `0` observably moves from `1` to `3`. -/
theorem claim_C4_counterexample :
    Reachable ufB ∧
    (UnionFind.union_by_rank ufB 0 9).1 = Except.error UnionByRankError.Elem2NotFound ∧
    Map.get ufB.parent 0 = some 1 ∧
    Map.get (UnionFind.union_by_rank ufB 0 9).2.parent 0 = some 3 := by
  refine ⟨?_, rfl, by decide, by decide⟩
  exact Reachable.ubr _ 0 2 (Reachable.ubr _ 2 3 (Reachable.ubr _ 0 1
    (Reachable.base [0, 1, 2, 3] ufB0 rfl)))

/-- C4 (amended): a union on an absent element fails fast with
`Elem1NotFound`/`Elem2NotFound`.  When the FIRST element is absent nothing
at all is mutated; when the first is present and the second absent, the
error is returned with the extra mapping, every key's `find` result and the
key set unchanged — only path compression from resolving the first element
may rewrite parent entries. -/
theorem claim_C4 [DecidableEq α] {ε : Type} (uf : UnionFind α) (e1 e2 : α)
    (u : α → α → Except ε α) (hinv : Inv uf) :
    (Map.get uf.parent e1 = none →
      UnionFind.union_by uf e1 e2 u = (Except.error UnionError.Elem1NotFound, uf) ∧
      UnionFind.union_by_rank uf e1 e2 =
        (Except.error UnionByRankError.Elem1NotFound, uf)) ∧
    (Map.get uf.parent e1 ≠ none → Map.get uf.parent e2 = none →
      (UnionFind.union_by uf e1 e2 u).1 = Except.error UnionError.Elem2NotFound ∧
      (UnionFind.union_by_rank uf e1 e2).1 = Except.error UnionByRankError.Elem2NotFound ∧
      (UnionFind.union_by uf e1 e2 u).2.extra = uf.extra ∧
      (UnionFind.union_by_rank uf e1 e2).2.extra = uf.extra ∧
      (∀ j, UnionFind.find (UnionFind.union_by uf e1 e2 u).2 j = UnionFind.find uf j) ∧
      (∀ j, UnionFind.find (UnionFind.union_by_rank uf e1 e2).2 j =
        UnionFind.find uf j) ∧
      (∀ j, Map.get (UnionFind.union_by uf e1 e2 u).2.parent j = none ↔
        Map.get uf.parent j = none) ∧
      (∀ j, Map.get (UnionFind.union_by_rank uf e1 e2).2.parent j = none ↔
        Map.get uf.parent j = none)) := by
  constructor
  · intro habs
    have hfsx := findShortenAux_succ_none habs uf.parent.length
    have hfs : UnionFind.find_shorten uf e1 = (none, uf) := by
      show ((findShortenAux (uf.parent.length + 1) uf.parent e1).1,
        { uf with parent := (findShortenAux (uf.parent.length + 1) uf.parent e1).2 }) =
        (none, uf)
      rw [hfsx]
    rw [union_by_none1 hfs e2 u, ubr_none1 hfs e2]
    exact ⟨rfl, rfl⟩
  · intro hpres habs2
    have h0 := (InvP_iff uf.parent).mp hinv.1 e1 hpres
    cases hf1 : UnionFind.find uf e1 with
    | none =>
      have hf1' : findAux uf.parent (uf.parent.length + 1) e1 = none := hf1
      rw [hf1'] at h0
      exact absurd h0 (by simp)
    | some r1 =>
      have hfst1 : (UnionFind.find_shorten uf e1).1 = some r1 := by
        rw [fs_fst]; exact hf1
      have hp1 := fs_pair hfst1
      have habs2' : Map.get (UnionFind.find_shorten uf e1).2.parent e2 = none :=
        findShortenAux_get_none habs2
      have hfsx2 := findShortenAux_succ_none habs2'
        ((UnionFind.find_shorten uf e1).2.parent.length)
      have hfs2 : UnionFind.find_shorten (UnionFind.find_shorten uf e1).2 e2 =
          (none, (UnionFind.find_shorten uf e1).2) := by
        show ((findShortenAux ((UnionFind.find_shorten uf e1).2.parent.length + 1)
            (UnionFind.find_shorten uf e1).2.parent e2).1,
          { (UnionFind.find_shorten uf e1).2 with
            parent := (findShortenAux ((UnionFind.find_shorten uf e1).2.parent.length + 1)
              (UnionFind.find_shorten uf e1).2.parent e2).2 }) =
          (none, (UnionFind.find_shorten uf e1).2)
        rw [hfsx2]
      rw [union_by_none2 hp1 hfs2 u, ubr_none2 hp1 hfs2]
      refine ⟨rfl, rfl, rfl, rfl, ?_, ?_, ?_, ?_⟩
      · exact fun j => find_pres_fs_uf e1 hinv.1 j
      · exact fun j => find_pres_fs_uf e1 hinv.1 j
      · exact fun j => findShortenAux_present j
      · exact fun j => findShortenAux_present j

/-- C4 witness: the amended theorem applied concretely — a missing first
element on `ufA` leaves the state literally untouched, and a missing second
element on `ufB` still reports `Elem2NotFound` with `find` results intact. -/
theorem claim_C4_witness :
    (UnionFind.union_by ufA 9 0 synthStrategy =
      (Except.error UnionError.Elem1NotFound, ufA)) ∧
    (UnionFind.union_by_rank ufB 0 9).1 = Except.error UnionByRankError.Elem2NotFound ∧
    UnionFind.find (UnionFind.union_by_rank ufB 0 9).2 0 = UnionFind.find ufB 0 := by
  have ha := (claim_C4 ufA 9 0 synthStrategy (by decide)).1 (by decide)
  have hb := (claim_C4 ufB 0 9 synthStrategy (by decide)).2 (by decide) (by decide)
  exact ⟨ha.1, hb.2.1, hb.2.2.2.2.2.1 0⟩

/-- C9: adding a brand-new key with `add` or `add_with_extra` succeeds and
never changes the `find` result of any pre-existing key. -/
theorem claim_C9 [DecidableEq α] (uf : UnionFind α) (x : α) (v : Nat) (hinv : Inv uf)
    (hx : Map.get uf.parent x = none) :
    ((UnionFind.add uf x).1 = Except.ok () ∧
     ∀ k, Map.get uf.parent k ≠ none →
       UnionFind.find (UnionFind.add uf x).2 k = UnionFind.find uf k) ∧
    ((UnionFind.add_with_extra uf x v).1 = Except.ok () ∧
     ∀ k, Map.get uf.parent k ≠ none →
       UnionFind.find (UnionFind.add_with_extra uf x v).2 k = UnionFind.find uf k) := by
  have hxe : Map.get uf.extra.mapping x = none := keysEq_absent hinv.2 hx
  have hkey : ∀ k, Map.get uf.parent k ≠ none →
      findAux (Map.set uf.parent x x) (uf.parent.length + 1 + 1) k =
        findAux uf.parent (uf.parent.length + 1) k := by
    intro k hk
    have h0 := (InvP_iff uf.parent).mp hinv.1 k hk
    cases hf : findAux uf.parent (uf.parent.length + 1) k with
    | none => rw [hf] at h0; exact absurd h0 (by simp)
    | some s =>
      have hext : ∀ i w, Map.get uf.parent i = some w →
          Map.get (Map.set uf.parent x x) i = some w := by
        intro i w hw
        rw [Map.get_set]
        by_cases hxi : x = i
        · rw [← hxi] at hw
          rw [hw] at hx
          exact Option.noConfusion hx
        · rw [if_neg hxi]
          exact hw
      exact findAux_mono (findAux_extend hext hf) (Nat.le_succ _)
  constructor
  · rw [add_ok hx hxe]
    refine ⟨rfl, fun k hk => ?_⟩
    show findAux (Map.set uf.parent x x) ((Map.set uf.parent x x).length + 1) k =
      UnionFind.find uf k
    exact hkey k hk
  · rw [awe_ok v hx hxe]
    refine ⟨rfl, fun k hk => ?_⟩
    show findAux (Map.set uf.parent x x) ((Map.set uf.parent x x).length + 1) k =
      UnionFind.find uf k
    exact hkey k hk

/-- C9 witness: adding the fresh key `5` to the union-find over `{0, 1}`
succeeds and leaves the `find` result of the existing key `0` unchanged. -/
theorem claim_C9_witness :
    (UnionFind.add ufA 5).1 = Except.ok () ∧
    UnionFind.find (UnionFind.add ufA 5).2 0 = UnionFind.find ufA 0 := by
  have h := claim_C9 ufA 5 7 (by decide) (by decide)
  exact ⟨h.1.1, h.1.2 0 (by decide)⟩

/-- C10: when the strategy handed to `union_by` returns a key `res` absent
from the parent mapping, the call still reports `Ok PerformedUnion`, no
self-loop entry is created for `res`, and afterwards `find` on both unioned
elements returns `none`. -/
theorem claim_C10 [DecidableEq α] {ε : Type} (uf : UnionFind α)
    (e1 e2 r1 r2 res : α) (u : α → α → Except ε α)
    (h1 : UnionFind.find uf e1 = some r1) (h2 : UnionFind.find uf e2 = some r2)
    (hne : r1 ≠ r2) (hu : u r1 r2 = Except.ok res)
    (habs : Map.get uf.parent res = none) :
    (UnionFind.union_by uf e1 e2 u).1 = Except.ok UnionStatus.PerformedUnion ∧
    Map.get (UnionFind.union_by uf e1 e2 u).2.parent res = none ∧
    UnionFind.find (UnionFind.union_by uf e1 e2 u).2 e1 = none ∧
    UnionFind.find (UnionFind.union_by uf e1 e2 u).2 e2 = none := by
  have h1c : findAux uf.parent (uf.parent.length + 1) e1 = some r1 := h1
  have h2c : findAux uf.parent (uf.parent.length + 1) e2 = some r2 := h2
  have hfst1 : (UnionFind.find_shorten uf e1).1 = some r1 := by
    rw [fs_fst]; exact h1
  have hp1 := fs_pair hfst1
  have h2' : UnionFind.find (UnionFind.find_shorten uf e1).2 e2 = some r2 := by
    show findAux (UnionFind.find_shorten uf e1).2.parent
      ((UnionFind.find_shorten uf e1).2.parent.length + 1) e2 = some r2
    exact findAux_mono (findShortenAux_preserve hfst1 h2c)
      (Nat.succ_le_succ (findShortenAux_length _ _ _))
  have hfst2 : (UnionFind.find_shorten (UnionFind.find_shorten uf e1).2 e2).1 =
      some r2 := by
    rw [fs_fst]; exact h2'
  have hp2 := fs_pair hfst2
  have hra : Map.get uf.parent r1 = some r1 := findAux_root h1c
  have hrc : Map.get uf.parent r2 = some r2 := findAux_root h2c
  have hrb : Map.get (UnionFind.find_shorten uf e1).2.parent r1 = some r1 :=
    findShortenAux_root_stable hra
  have hr1m2 : Map.get
      (UnionFind.find_shorten (UnionFind.find_shorten uf e1).2 e2).2.parent r1 =
      some r1 := findShortenAux_root_stable hrb
  have hrd : Map.get (UnionFind.find_shorten uf e1).2.parent r2 = some r2 :=
    findShortenAux_root_stable hrc
  have hr2m2 : Map.get
      (UnionFind.find_shorten (UnionFind.find_shorten uf e1).2 e2).2.parent r2 =
      some r2 := findShortenAux_root_stable hrd
  have habs_m2 : Map.get
      (UnionFind.find_shorten (UnionFind.find_shorten uf e1).2 e2).2.parent res =
      none := findShortenAux_get_none (findShortenAux_get_none habs)
  have hres1 : res ≠ r1 := by
    intro hh
    rw [hh, hra] at habs
    exact Option.noConfusion habs
  have hres2 : res ≠ r2 := by
    intro hh
    rw [hh, hrc] at habs
    exact Option.noConfusion habs
  have hm1e1 : findAux (UnionFind.find_shorten uf e1).2.parent
      (uf.parent.length + 1) e1 = some r1 := findShortenAux_preserve hfst1 h1c
  have hm2e1 : findAux
      (UnionFind.find_shorten (UnionFind.find_shorten uf e1).2 e2).2.parent
      (uf.parent.length + 1) e1 = some r1 := findShortenAux_preserve hfst2 hm1e1
  have hm2e2 : findAux
      (UnionFind.find_shorten (UnionFind.find_shorten uf e1).2 e2).2.parent
      ((UnionFind.find_shorten uf e1).2.parent.length + 1) e2 = some r2 :=
    findShortenAux_preserve hfst2 h2'
  have hg31 : Map.get (Map.set (Map.set
      (UnionFind.find_shorten (UnionFind.find_shorten uf e1).2 e2).2.parent r1 res)
      r2 res) r1 = some res := by
    rw [Map.get_set, if_neg (fun hh : r2 = r1 => hne hh.symm), Map.get_set, if_pos rfl]
  have hg32 : Map.get (Map.set (Map.set
      (UnionFind.find_shorten (UnionFind.find_shorten uf e1).2 e2).2.parent r1 res)
      r2 res) r2 = some res := by
    rw [Map.get_set, if_pos rfl]
  have hg3res : Map.get (Map.set (Map.set
      (UnionFind.find_shorten (UnionFind.find_shorten uf e1).2 e2).2.parent r1 res)
      r2 res) res = none := by
    rw [Map.get_set, if_neg (fun hh : r2 = res => hres2 hh.symm),
      Map.get_set, if_neg (fun hh : r1 = res => hres1 hh.symm)]
    exact habs_m2
  have hchanged : ∀ j, Map.get (Map.set (Map.set
      (UnionFind.find_shorten (UnionFind.find_shorten uf e1).2 e2).2.parent r1 res)
      r2 res) j ≠
      Map.get (UnionFind.find_shorten (UnionFind.find_shorten uf e1).2 e2).2.parent j →
      Map.get (UnionFind.find_shorten (UnionFind.find_shorten uf e1).2 e2).2.parent j =
        some j := by
    intro j hch
    by_cases hj2 : r2 = j
    · rw [← hj2]
      exact hr2m2
    · by_cases hj1 : r1 = j
      · rw [← hj1]
        exact hr1m2
      · exfalso
        apply hch
        rw [Map.get_set, if_neg hj2, Map.get_set, if_neg hj1]
  have hdead1 : ∀ n2, findAux (Map.set (Map.set
      (UnionFind.find_shorten (UnionFind.find_shorten uf e1).2 e2).2.parent r1 res)
      r2 res) n2 r1 = none := by
    intro n2
    cases n2 with
    | zero => rfl
    | succ n3 =>
      rw [findAux_succ_some hg31 n3, if_neg hres1]
      cases n3 with
      | zero => rfl
      | succ n4 => exact findAux_succ_none hg3res n4
  have hdead2 : ∀ n2, findAux (Map.set (Map.set
      (UnionFind.find_shorten (UnionFind.find_shorten uf e1).2 e2).2.parent r1 res)
      r2 res) n2 r2 = none := by
    intro n2
    cases n2 with
    | zero => rfl
    | succ n3 =>
      rw [findAux_succ_some hg32 n3, if_neg hres2]
      cases n3 with
      | zero => rfl
      | succ n4 => exact findAux_succ_none hg3res n4
  rw [union_by_some hp1 hp2 u, union_helper_ne _ hne u, hu]
  refine ⟨rfl, ?_, ?_, ?_⟩
  · show Map.get (Map.set (Map.set
      (UnionFind.find_shorten (UnionFind.find_shorten uf e1).2 e2).2.parent r1 res)
      r2 res) res = none
    exact hg3res
  · show findAux (Map.set (Map.set
      (UnionFind.find_shorten (UnionFind.find_shorten uf e1).2 e2).2.parent r1 res)
      r2 res) ((Map.set (Map.set
      (UnionFind.find_shorten (UnionFind.find_shorten uf e1).2 e2).2.parent r1 res)
      r2 res).length + 1) e1 = none
    exact findAux_dead hchanged hdead1 hm2e1 _
  · show findAux (Map.set (Map.set
      (UnionFind.find_shorten (UnionFind.find_shorten uf e1).2 e2).2.parent r1 res)
      r2 res) ((Map.set (Map.set
      (UnionFind.find_shorten (UnionFind.find_shorten uf e1).2 e2).2.parent r1 res)
      r2 res).length + 1) e2 = none
    exact findAux_dead hchanged hdead2 hm2e2 _

/-- C10 witness: on the fresh union-find over `{0, 1}`, a strategy
returning the absent key `5` reports `PerformedUnion`, creates no entry for
`5`, and leaves both `0` and `1` unresolvable. -/
theorem claim_C10_witness :
    (UnionFind.union_by ufA 0 1 synthStrategy).1 =
      Except.ok UnionStatus.PerformedUnion ∧
    Map.get (UnionFind.union_by ufA 0 1 synthStrategy).2.parent 5 = none ∧
    UnionFind.find (UnionFind.union_by ufA 0 1 synthStrategy).2 0 = none ∧
    UnionFind.find (UnionFind.union_by ufA 0 1 synthStrategy).2 1 = none :=
  claim_C10 ufA 0 1 0 1 5 synthStrategy (by decide) (by decide) (by decide) rfl
    (by decide)

end Lace
